import Mathlib

/-!
# ai.meng.zip backend: the chat gateway of `backend/main.go`

A shallow embedding of the one-file Go gateway: the static model registry, the
request handler `chatHandler`, the models listing `modelsHandler` and the
streaming relay `streamChatToHTTP`, followed by the properties the design
document states about them.

* Go strings are byte sequences; they are embedded as lists of byte values.
* The functions of the Go standard library that `main.go` calls are embedded by their
  documented behaviour: `strings.Contains`, `strings.HasPrefix`, the line scanner of
  `bufio` with its default buffer bound, and the decoders of `encoding/json` at the two
  struct types of `main.go`.
* What depends on the outside world is a field of the environment record `Env`: the
  bytes `json.Marshal` produces, the answer to `http.Post`, and whether the response
  writer can flush. The two JSON decoders are fields of `Env` as well, so that the
  properties of the handler and of the relay hold for any decoder; the concrete runs use
  the embedded decoders.
* The upstream body is a finite byte sequence that is delivered without a transport
  error; wall-clock figures of the log lines are left out.
-/

namespace Backend

/-! ## Strings -/

/-- Go `byte`, as its numeric value. -/
abbrev Byte := Nat

/-- Go `string`: a sequence of bytes. -/
abbrev GoString := List Byte

/-- The bytes of an ASCII string literal of the source. -/
def str (s : String) : GoString := s.toList.map Char.toNat

namespace strings

/-- Go `strings.HasPrefix(s, prefix)`. -/
def HasPrefix (s pre : GoString) : Bool := pre.isPrefixOf s

/-- Go `strings.Contains(s, substr)`: `substr` occurs at some offset of `s`. -/
def Contains : GoString → GoString → Bool
  | [], substr => HasPrefix [] substr
  | c :: t, substr => HasPrefix (c :: t) substr || Contains t substr

end strings

/-! ## Data model (`main.go` lines 13-36) -/

/-- Go `float64`, as its IEEE-754 binary64 bit pattern. -/
structure Float64 where
  bits : Nat
deriving DecidableEq, Repr

/-- The constant `0.7` as a `float64`. -/
def Float64.lit_0_7 : Float64 := ⟨0x3FE6666666666666⟩

structure ChatMessage where
  Role : GoString
  Content : GoString
deriving DecidableEq, Repr

structure StreamRequest where
  Messages : List ChatMessage
  MaxTokens : Int
  Temperature : Float64
  Stream : Bool
  Model : GoString
deriving DecidableEq, Repr

/-- The anonymous struct of the field `Delta`. -/
structure Delta where
  Content : GoString
  Role : GoString
deriving DecidableEq, Repr

/-- The anonymous element struct of the field `Choices`. -/
structure Choice where
  Delta : Delta
  Index : Int
  FinishReason : GoString
deriving DecidableEq, Repr

structure StreamResponse where
  Choices : List Choice
  Model : GoString
deriving DecidableEq, Repr

/-! ## JSON decoding (`encoding/json`)

The part of Go `encoding/json` the gateway uses: the syntax its scanner accepts, and the
rules by which a JSON value is stored into a Go value of the types of `main.go`. A type
mismatch makes the decoder return an error, like a syntax error does; the gateway treats
both alike, so the decoders below return `none` for `err != nil`. -/

namespace json

/-- A JSON value. A number keeps its literal text, a string is unquoted. -/
inductive Value where
  | null
  | bool (b : Bool)
  | number (lit : GoString)
  | string (s : GoString)
  | array (elems : List Value)
  | object (members : List (GoString × Value))
deriving Repr

/-- The scanner's `isSpace`: space, tab, carriage return, line feed. -/
def isSpace (c : Byte) : Bool := c = 32 || c = 9 || c = 13 || c = 10

def skipSpace : GoString → GoString
  | [] => []
  | c :: t => if isSpace c then skipSpace t else c :: t

def isDigit (c : Byte) : Bool := decide (48 ≤ c) && decide (c ≤ 57)

/-- Value of a hexadecimal digit, as the scanner accepts them after `\u`. -/
def hexVal (c : Byte) : Option Nat :=
  if 48 ≤ c ∧ c ≤ 57 then some (c - 48)
  else if 97 ≤ c ∧ c ≤ 102 then some (c - 87)
  else if 65 ≤ c ∧ c ≤ 70 then some (c - 55)
  else none

/-- Go `getu4` on the four bytes after `\u`. -/
def getu4 : GoString → Option Nat
  | a :: b :: c :: d :: _ =>
    match hexVal a, hexVal b, hexVal c, hexVal d with
    | some x, some y, some z, some w => some (((x * 16 + y) * 16 + z) * 16 + w)
    | _, _, _, _ => none
  | _ => none

/-- Go `utf8.EncodeRune`: surrogates and values past U+10FFFF become U+FFFD. -/
def encodeRune (r : Nat) : GoString :=
  if r < 0x80 then [r]
  else if r < 0x800 then [0xC0 + r / 64, 0x80 + r % 64]
  else if (0xD800 ≤ r ∧ r < 0xE000) ∨ 0x10FFFF < r then [0xEF, 0xBF, 0xBD]
  else if r < 0x10000 then [0xE0 + r / 4096, 0x80 + r / 64 % 64, 0x80 + r % 64]
  else [0xF0 + r / 262144, 0x80 + r / 4096 % 64, 0x80 + r / 64 % 64, 0x80 + r % 64]

def isCont (c : Byte) : Bool := decide (0x80 ≤ c) && decide (c ≤ 0xBF)

/-- Length of the well-formed UTF-8 sequence at the head of `s` (whose first byte is not
ASCII), by the ranges of Go `utf8.DecodeRune`; `none` where that returns `RuneError`
with width 1. -/
def utf8Len : GoString → Option Nat
  | [] => none
  | b0 :: t =>
    if b0 < 0xC2 ∨ 0xF4 < b0 then none
    else if b0 < 0xE0 then
      match t with
      | b1 :: _ => if isCont b1 then some 2 else none
      | _ => none
    else if b0 < 0xF0 then
      match t with
      | b1 :: b2 :: _ =>
        if (if b0 = 0xE0 then 0xA0 else 0x80) ≤ b1 ∧ b1 ≤ (if b0 = 0xED then 0x9F else 0xBF)
            ∧ isCont b2 then some 3 else none
      | _ => none
    else
      match t with
      | b1 :: b2 :: b3 :: _ =>
        if (if b0 = 0xF0 then 0x90 else 0x80) ≤ b1 ∧ b1 ≤ (if b0 = 0xF4 then 0x8F else 0xBF)
            ∧ isCont b2 ∧ isCont b3 then some 4 else none
      | _ => none

/-- The byte a one-letter escape stands for. -/
def escapeByte (c : Byte) : Option Byte :=
  if c = 34 ∨ c = 92 ∨ c = 47 then some c
  else if c = 98 then some 8
  else if c = 102 then some 12
  else if c = 110 then some 10
  else if c = 114 then some 13
  else if c = 116 then some 9
  else none

/-- One piece of a string literal that starts with the byte `c` (not the closing quote):
the bytes it stands for in the unquoted string (Go `unquoteBytes`: an escape is replaced,
ill-formed UTF-8 and an unpaired surrogate become U+FFFD) and the input after the piece.
`none` where the scanner reports a syntax error. -/
def stringPiece (c : Byte) (t : GoString) : Option (GoString × GoString) :=
  if c = 92 then
    match t with
    | [] => none
    | e :: t1 =>
      if e = 117 then
        match getu4 t1 with
        | none => none
        | some rr =>
          if 0xD800 ≤ rr ∧ rr < 0xE000 then
            match t1.drop 4 with
            | 92 :: 117 :: t3 =>
              match getu4 t3 with
              | some rr1 =>
                if rr < 0xDC00 ∧ 0xDC00 ≤ rr1 ∧ rr1 < 0xE000 then
                  some (encodeRune ((rr - 0xD800) * 1024 + (rr1 - 0xDC00) + 0x10000), t3.drop 4)
                else some ([0xEF, 0xBF, 0xBD], t1.drop 4)
              | none => some ([0xEF, 0xBF, 0xBD], t1.drop 4)
            | _ => some ([0xEF, 0xBF, 0xBD], t1.drop 4)
          else some (encodeRune rr, t1.drop 4)
      else (escapeByte e).map fun b => ([b], t1)
  else if c < 32 then none
  else if c < 128 then some ([c], t)
  else
    match utf8Len (c :: t) with
    | some n => some ((c :: t).take n, (c :: t).drop n)
    | none => some ([0xEF, 0xBF, 0xBD], t)

/-- A string literal after its opening quote: the unquoted bytes and the input after the
closing quote; `none` where the scanner reports a syntax error. Every piece consumes
input, so `fuel = s.length + 1` is enough. -/
def parseString : Nat → GoString → Option (GoString × GoString)
  | 0, _ => none
  | fuel + 1, s =>
    match s with
    | [] => none
    | c :: t =>
      if c = 34 then some ([], t)
      else
        match stringPiece c t with
        | none => none
        | some (piece, rest) => (parseString fuel rest).map fun p => (piece ++ p.1, p.2)

/-- The exponent part of a number, if any. -/
def parseExp (lit s : GoString) : Option (GoString × GoString) :=
  match s with
  | [] => some (lit, s)
  | c :: t =>
    if c = 101 ∨ c = 69 then
      let signed : GoString × GoString :=
        match t with
        | x :: t1 => if x = 43 ∨ x = 45 then ([x], t1) else ([], t)
        | [] => ([], t)
      let ds := signed.2.span isDigit
      if ds.1 = [] then none else some (lit ++ c :: signed.1 ++ ds.1, ds.2)
    else some (lit, s)

/-- The fraction and exponent parts of a number, if any. -/
def parseFrac (lit s : GoString) : Option (GoString × GoString) :=
  match s with
  | 46 :: t =>
    let ds := t.span isDigit
    if ds.1 = [] then none else parseExp (lit ++ 46 :: ds.1) ds.2
  | _ => parseExp lit s

/-- A number literal at the head of `s`: its text and the input after it. -/
def parseNumber (s : GoString) : Option (GoString × GoString) :=
  let signed : GoString × GoString :=
    match s with
    | 45 :: t => ([45], t)
    | _ => ([], s)
  match signed.2 with
  | [] => none
  | d :: t =>
    if d = 48 then parseFrac (signed.1 ++ [48]) t
    else if 49 ≤ d ∧ d ≤ 57 then
      let ds := t.span isDigit
      parseFrac (signed.1 ++ d :: ds.1) ds.2
    else none

/-- The scanner's `maxNestingDepth`. -/
def maxNestingDepth : Nat := 10000

mutual

/-- One JSON value at the head of `s` (no leading space), `depth` containers deep, and
the input after it; `none` where the scanner reports a syntax error. -/
def parseValue : Nat → Nat → GoString → Option (Value × GoString)
  | 0, _, _ => none
  | fuel + 1, depth, s =>
    match s with
    | [] => none
    | c :: t =>
      if c = 91 then
        if maxNestingDepth < depth + 1 then none
        else
          match skipSpace t with
          | [] => none
          | c1 :: r =>
            if c1 = 93 then some (.array [], r)
            else (parseElems fuel (depth + 1) (c1 :: r)).map fun p => (.array p.1, p.2)
      else if c = 123 then
        if maxNestingDepth < depth + 1 then none
        else
          match skipSpace t with
          | [] => none
          | c1 :: r =>
            if c1 = 125 then some (.object [], r)
            else (parseMembers fuel (depth + 1) (c1 :: r)).map fun p => (.object p.1, p.2)
      else if c = 34 then
        (parseString (t.length + 1) t).map fun p => (.string p.1, p.2)
      else if c = 45 ∨ isDigit c then
        (parseNumber s).map fun p => (.number p.1, p.2)
      else if (str "true").isPrefixOf s then some (.bool true, s.drop 4)
      else if (str "false").isPrefixOf s then some (.bool false, s.drop 5)
      else if (str "null").isPrefixOf s then some (.null, s.drop 4)
      else none

/-- The elements of an array after the first has been found to start at `s`. -/
def parseElems : Nat → Nat → GoString → Option (List Value × GoString)
  | 0, _, _ => none
  | fuel + 1, depth, s =>
    match parseValue fuel depth s with
    | none => none
    | some (v, r) =>
      match skipSpace r with
      | [] => none
      | c :: r1 =>
        if c = 44 then (parseElems fuel depth (skipSpace r1)).map fun p => (v :: p.1, p.2)
        else if c = 93 then some ([v], r1)
        else none

/-- The members of an object, from the key that has to start at `s`. -/
def parseMembers : Nat → Nat → GoString → Option (List (GoString × Value) × GoString)
  | 0, _, _ => none
  | fuel + 1, depth, s =>
    match s with
    | [] => none
    | q :: t =>
      if q ≠ 34 then none
      else
        match parseString (t.length + 1) t with
        | none => none
        | some (key, r) =>
          match skipSpace r with
          | [] => none
          | colon :: r1 =>
            if colon ≠ 58 then none
            else
              match parseValue fuel depth (skipSpace r1) with
              | none => none
              | some (v, r2) =>
                match skipSpace r2 with
                | [] => none
                | c :: r3 =>
                  if c = 44 then
                    (parseMembers fuel depth (skipSpace r3)).map fun p => ((key, v) :: p.1, p.2)
                  else if c = 125 then some ([(key, v)], r3)
                  else none

end

/-- The first JSON value of `data` after leading space, and the input after it. Every
nested call consumes input, so `2 * data.length + 2` levels of calls are enough. -/
def parse (data : GoString) : Option (Value × GoString) :=
  parseValue (2 * data.length + 2) 0 (skipSpace data)

end json

/-! ## Number conversion (`strconv`), as `encoding/json` uses it -/

namespace strconv

/-- The value of a run of decimal digits. -/
def digitsValue (digits : GoString) : Nat :=
  digits.foldl (fun acc d => acc * 10 + (d - 48)) 0

/-- Number of binary digits of `n`, for `n ≤ fuel`. -/
def bitLen : Nat → Nat → Nat
  | 0, _ => 0
  | fuel + 1, n => if n = 0 then 0 else bitLen fuel (n / 2) + 1

/-- The quotient `num * 2 ^ k / den` for an integer `k` of either sign, rounded to the
nearest integer, a tie to the even one. -/
def roundedQuotient (num den : Nat) (k : Int) : Nat :=
  let n := if 0 ≤ k then num * 2 ^ k.toNat else num
  let d := if 0 ≤ k then den else den * 2 ^ (-k).toNat
  let q := n / d
  let r := n % d
  if 2 * r < d then q
  else if d < 2 * r then q + 1
  else if q % 2 = 0 then q else q + 1

/-- The binary64 nearest to `num / den` (both positive), as its bit pattern without the
sign; `none` where the value rounds past the largest finite binary64. -/
def nearestFloat64 (num den : Nat) : Option Nat :=
  -- 2 ^ (e0 + 52) ≤ num / den < 2 ^ (e0 + 54) for the estimate e0 of the exponent
  let e0 : Int := (bitLen num num : Int) - (bitLen den den : Int) - 53
  let q0 := roundedQuotient num den (-e0)
  -- the exponent for which the quotient has 53 bits, not below that of the subnormals
  let e1 : Int := if q0 < 2 ^ 53 then e0 else e0 + 1
  let e : Int := if e1 < -1074 then -1074 else e1
  let q := roundedQuotient num den (-e)
  -- rounding up may have produced 2 ^ 53
  let e2 : Int := if q = 2 ^ 53 then e + 1 else e
  let m : Nat := if q = 2 ^ 53 then 2 ^ 52 else q
  if 971 < e2 then none
  else if m < 2 ^ 52 then some m
  else some ((e2 + 1075).toNat * 2 ^ 52 + (m - 2 ^ 52))

/-- The parts of a JSON number: whether it is negative, the digits of the integer and
fraction parts, and the exponent. -/
def numberParts (lit : GoString) : Bool × GoString × Int :=
  let neg := lit.head? = some 45
  let s := if neg then lit.drop 1 else lit
  let intPart := s.span json.isDigit
  let afterFrac : GoString × GoString :=
    match intPart.2 with
    | 46 :: t => t.span json.isDigit
    | _ => ([], intPart.2)
  let exp : Int :=
    match afterFrac.2 with
    | _ :: 45 :: t => - (digitsValue t : Int)
    | _ :: 43 :: t => digitsValue t
    | _ :: t => digitsValue t
    | [] => 0
  (neg, intPart.1 ++ afterFrac.1, exp - afterFrac.1.length)

/-- Go `strconv.ParseFloat(lit, 64)` on the text of a JSON number: the nearest binary64,
a tie to the even one; `none` where it reports a range error. -/
def ParseFloat (lit : GoString) : Option Float64 :=
  let parts := numberParts lit
  let mant := digitsValue parts.2.1
  let sign : Nat := if parts.1 then 2 ^ 63 else 0
  if mant = 0 then some ⟨sign⟩
  else
    let num := if 0 ≤ parts.2.2 then mant * 10 ^ parts.2.2.toNat else mant
    let den := if 0 ≤ parts.2.2 then 1 else 10 ^ (-parts.2.2).toNat
    (nearestFloat64 num den).map fun b => ⟨sign + b⟩

/-- Go `strconv.ParseInt(lit, 10, 64)` on the text of a JSON number: its value when the
text is an optional minus sign and digits and the value is in the range of `int64`. -/
def ParseInt (lit : GoString) : Option Int :=
  let digits := if lit.head? = some 45 then lit.drop 1 else lit
  if digits.all json.isDigit then
    let v : Int := if lit.head? = some 45 then - (digitsValue digits : Int) else digitsValue digits
    if - (2 : Int) ^ 63 ≤ v ∧ v < (2 : Int) ^ 63 then some v else none
  else none

end strconv

namespace json

/-- Go `foldName`, as far as equality with a name made of ASCII letters and underscores
needs it: ASCII letters to upper case, U+017F to `S`, U+212A to `K`. -/
def foldName : GoString → GoString
  | [] => []
  | 0xC5 :: 0xBF :: t => 83 :: foldName t
  | 0xE2 :: 0x84 :: 0xAA :: t => 75 :: foldName t
  | c :: t => (if 97 ≤ c ∧ c ≤ 122 then c - 32 else c) :: foldName t

/-- Whether an object key selects the struct field with JSON name `name`: the exact
name, or one equal to it under case folding. -/
def isField (key : GoString) (name : String) : Bool :=
  key = str name || foldName key = foldName (str name)

/-- Store a JSON value into a Go `string`. -/
def storeString (cur : GoString) : Value → Option GoString
  | .string s => some s
  | .null => some cur
  | _ => none

/-- Store a JSON value into a Go `int`. -/
def storeInt (cur : Int) : Value → Option Int
  | .number lit => strconv.ParseInt lit
  | .null => some cur
  | _ => none

/-- Store a JSON value into a Go `bool`. -/
def storeBool (cur : Bool) : Value → Option Bool
  | .bool b => some b
  | .null => some cur
  | _ => none

/-- Store a JSON value into a Go `float64`. -/
def storeFloat (cur : Float64) : Value → Option Float64
  | .number lit => strconv.ParseFloat lit
  | .null => some cur
  | _ => none

/-- Store the members of a JSON object into a struct, one after the other. -/
def storeMembers {α : Type} (field : α → GoString → Value → Option α) :
    α → List (GoString × Value) → Option α
  | cur, [] => some cur
  | cur, (key, v) :: rest =>
    match field cur key v with
    | none => none
    | some next => storeMembers field next rest

/-- Store a JSON value into a struct whose fields are stored by `field`. -/
def storeStruct {α : Type} (field : α → GoString → Value → Option α) (cur : α) :
    Value → Option α
  | .object members => storeMembers field cur members
  | .null => some cur
  | _ => none

/-- Store the elements of a JSON array: element `i` goes into the slice element `i`
where the slice has one, into a zero value otherwise. The slice has elements already
only when the JSON object repeats the key of the slice. -/
def storeElems {α : Type} (elem : α → Value → Option α) (zero : α) :
    List α → List Value → Option (List α)
  | _, [] => some []
  | cur, e :: es =>
    match elem (cur.headD zero) e, storeElems elem zero cur.tail es with
    | some x, some xs => some (x :: xs)
    | _, _ => none

/-- Store a JSON value into a slice of structs. -/
def storeSlice {α : Type} (elem : α → Value → Option α) (zero : α) (cur : List α) :
    Value → Option (List α)
  | .array elems => storeElems elem zero cur elems
  | .null => some []
  | _ => none

def deltaField (cur : Delta) (key : GoString) (v : Value) : Option Delta :=
  if isField key "content" then (storeString cur.Content v).map fun x => { cur with Content := x }
  else if isField key "role" then (storeString cur.Role v).map fun x => { cur with Role := x }
  else some cur

def choiceField (cur : Choice) (key : GoString) (v : Value) : Option Choice :=
  if isField key "delta" then
    (storeStruct deltaField cur.Delta v).map fun x => { cur with Delta := x }
  else if isField key "index" then (storeInt cur.Index v).map fun x => { cur with Index := x }
  else if isField key "finish_reason" then
    (storeString cur.FinishReason v).map fun x => { cur with FinishReason := x }
  else some cur

def streamResponseField (cur : StreamResponse) (key : GoString) (v : Value) :
    Option StreamResponse :=
  if isField key "choices" then
    (storeSlice (storeStruct choiceField) ⟨⟨[], []⟩, 0, []⟩ cur.Choices v).map
      fun x => { cur with Choices := x }
  else if isField key "model" then (storeString cur.Model v).map fun x => { cur with Model := x }
  else some cur

def chatMessageField (cur : ChatMessage) (key : GoString) (v : Value) : Option ChatMessage :=
  if isField key "role" then (storeString cur.Role v).map fun x => { cur with Role := x }
  else if isField key "content" then
    (storeString cur.Content v).map fun x => { cur with Content := x }
  else some cur

def streamRequestField (cur : StreamRequest) (key : GoString) (v : Value) :
    Option StreamRequest :=
  if isField key "messages" then
    (storeSlice (storeStruct chatMessageField) ⟨[], []⟩ cur.Messages v).map
      fun x => { cur with Messages := x }
  else if isField key "max_tokens" then
    (storeInt cur.MaxTokens v).map fun x => { cur with MaxTokens := x }
  else if isField key "temperature" then
    (storeFloat cur.Temperature v).map fun x => { cur with Temperature := x }
  else if isField key "stream" then (storeBool cur.Stream v).map fun x => { cur with Stream := x }
  else if isField key "model" then (storeString cur.Model v).map fun x => { cur with Model := x }
  else some cur

/-- Go `json.Unmarshal(data, &streamResp)` for a zero `streamResp`: `data` has to be one
JSON value between optional space. -/
def Unmarshal (data : GoString) : Option StreamResponse :=
  match parse data with
  | none => none
  | some (v, rest) =>
    if skipSpace rest = [] then storeStruct streamResponseField ⟨[], []⟩ v else none

/-- Go `json.NewDecoder(r.Body).Decode(&req)` for a zero `req` and the body `data`: the
first JSON value of the body is decoded. The decoder's `readValue` ends the value at
its closing bracket, or for any other value at the first byte that cannot continue it,
and what follows the value is not looked at. -/
def Decode (data : GoString) : Option StreamRequest :=
  match parse data with
  | none => none
  | some (v, _) => storeStruct streamRequestField ⟨[], 0, ⟨0⟩, false, []⟩ v

end json

/-! ## Relay loop (`streamChatToHTTP`, lines 91-130) -/

/-- What the loop of `streamChatToHTTP` has done so far. -/
structure Relay where
  /-- The payload of each `fmt.Fprintf(w, "%s\n", line)`, oldest first. -/
  writes : List GoString
  /-- Number of `flusher.Flush()` calls. -/
  flushes : Nat
  /-- The local variable `tokenCount`. -/
  tokenCount : Nat
  /-- Number of lines taken from the scanner (`scanner.Scan()` returned true). -/
  scans : Nat
  /-- Whether the loop was left through `break`. -/
  broke : Bool
deriving DecidableEq, Repr

/-- State on entry to the loop: `tokenCount := 0`, nothing written. -/
def Relay.init : Relay := ⟨[], 0, 0, 0, false⟩

/-- The pair `fmt.Fprintf(w, "%s\n", line); flusher.Flush()`. -/
def Relay.forward (st : Relay) (line : GoString) : Relay :=
  { st with writes := st.writes ++ [line ++ [10]], flushes := st.flushes + 1 }

/-- Lines 120-125: count the chunk when its first choice has non-empty content. -/
def Relay.count (st : Relay) (streamResp : StreamResponse) : Relay :=
  match streamResp.Choices with
  | [] => st
  | c :: _ => if c.Delta.Content ≠ [] then { st with tokenCount := st.tokenCount + 1 } else st

/-- The body of `for scanner.Scan() { line := scanner.Text(); ... }`, run over the
lines the scanner yields, in order. The body never touches the scanner, so the loop is
the recursion over that sequence: it is left through `break` at a `[DONE]` line, or when
the lines are exhausted. `unmarshal jsonStr` is `json.Unmarshal([]byte(jsonStr), &streamResp)`:
`none` stands for `err != nil`. -/
def relayLoop (unmarshal : GoString → Option StreamResponse) :
    List GoString → Relay → Relay
  | [], st => st
  | line :: rest, st0 =>
    let st := { st0 with scans := st0.scans + 1 }
    if line = [] then
      relayLoop unmarshal rest st
    else if strings.Contains line (str "[DONE]") then
      { st.forward line with broke := true }
    else if strings.HasPrefix line (str "data: ") then
      let jsonStr := line.drop 6
      match unmarshal jsonStr with
      | none => relayLoop unmarshal rest st
      | some streamResp => relayLoop unmarshal rest ((st.forward line).count streamResp)
    else
      relayLoop unmarshal rest (st.forward line)

/-! ## Line scanner (`bufio.NewScanner(resp.Body)`, line 89)

`bufio.NewScanner` fixes the split function to `bufio.ScanLines` and the largest token
to `bufio.MaxScanTokenSize`; `streamChatToHTTP` never calls `Scanner.Buffer`. -/

namespace bufio

/-- Go `bufio.MaxScanTokenSize`: the size the scanner buffer never exceeds. -/
def MaxScanTokenSize : Nat := 64 * 1024

/-- Go `bufio.dropCR`: drop one trailing carriage return. -/
def dropCR (data : GoString) : GoString :=
  if data.getLast? = some 13 then data.dropLast else data

/-- Go `bufio.ScanLines(data, atEOF)`: the bytes to advance and the token, `none` where
the split function returns a nil token and asks for more data. -/
def ScanLines (data : GoString) (atEOF : Bool) : Nat × Option GoString :=
  if atEOF && data.isEmpty then (0, none)
  else
    let i := data.indexOf 10
    if i < data.length then (i + 1, some (dropCR (data.take i)))
    else if atEOF then (data.length, some (dropCR data))
    else (0, none)

/-- The error `bufio.ErrTooLong` ("bufio.Scanner: token too long"). -/
inductive ScanError where
  | ErrTooLong
deriving DecidableEq, Repr

/-- A scanner over a response body that is delivered without a transport error.
`pending` is the part of the body no token has consumed yet (buffered or still to be
read). `eofWithData` tells whether the body reader reports `io.EOF` in the same `Read`
that delivers its last bytes, instead of in a later empty `Read`. -/
structure Scanner where
  pending : GoString
  eofWithData : Bool
deriving DecidableEq, Repr

/-- Result of one `Scanner.Scan()`. -/
inductive ScanResult where
  /-- `Scan()` returned true; `Text()` is `text`. -/
  | token (text : GoString) (next : Scanner)
  /-- `Scan()` returned false; `Err()` is `err` (`none` at end of input). -/
  | stop (err : Option ScanError)
deriving DecidableEq, Repr

/-- One `Scanner.Scan()`. The buffer starts at the first pending byte and grows by
doubling up to `MaxScanTokenSize`, so the split function gets to see at most the first
`MaxScanTokenSize` pending bytes. End of input is noticed when the whole pending input
fits in the buffer with room for one more `Read`, or fills it exactly while the reader
reports `io.EOF` along with the data. A buffer that is full without a token and without
end of input stops the scanner with `ErrTooLong`. -/
def Scanner.Scan (s : Scanner) : ScanResult :=
  let window := s.pending.take MaxScanTokenSize
  let atEOF := decide (s.pending.length < MaxScanTokenSize) ||
    (s.eofWithData && decide (s.pending.length = MaxScanTokenSize))
  match ScanLines window atEOF with
  | (advance, some token) => .token token { s with pending := s.pending.drop advance }
  | (_, none) => if atEOF then .stop none else .stop (some .ErrTooLong)

/-- The lines that successive `Scan()` calls yield until the first one that returns
false, and what `Err()` returns then. Every token consumes at least one byte, so
`fuel = pending.length + 1` calls are enough (`Scanner.run`). -/
def Scanner.lines : Nat → Scanner → List GoString × Option ScanError
  | 0, _ => ([], none)
  | fuel + 1, s =>
    match s.Scan with
    | .stop err => ([], err)
    | .token text next => (text :: (Scanner.lines fuel next).1, (Scanner.lines fuel next).2)

/-- All lines of the scanner and its final error. -/
def Scanner.run (s : Scanner) : List GoString × Option ScanError :=
  Scanner.lines (s.pending.length + 1) s

end bufio

/-! ## `streamChatToHTTP` (lines 64-136) -/

/-- The errors `streamChatToHTTP` can return. -/
inductive Error where
  /-- The error of `json.Marshal`. -/
  | marshal (msg : GoString)
  /-- The error of `http.Post`. -/
  | post (msg : GoString)
  /-- The error `fmt.Errorf("streaming not supported")`. -/
  | streamingNotSupported
  /-- The error of `scanner.Err()`. -/
  | scan (e : bufio.ScanError)
deriving DecidableEq, Repr

/-- The response body of the upstream service. -/
structure Body where
  data : GoString
  eofWithData : Bool
deriving DecidableEq, Repr

/-- One `http.Post(url, contentType, body)`. -/
structure Post where
  url : GoString
  contentType : GoString
  body : GoString
deriving DecidableEq, Repr

/-- The library and the outside world, as far as the gateway depends on them. -/
structure Env where
  /-- Go `json.Marshal` at type `StreamRequest`. -/
  marshal : StreamRequest → Except GoString GoString
  /-- Go `http.Post`: the upstream answers with a body, or the call fails. -/
  post : Post → Except GoString Body
  /-- Whether the response writer implements `http.Flusher`. -/
  canFlush : Bool
  /-- Go `json.Unmarshal` into a `StreamResponse`; `none` stands for `err != nil`. -/
  unmarshal : GoString → Option StreamResponse
  /-- Go `json.NewDecoder(r.Body).Decode(&req)`; `none` stands for `err != nil`. -/
  decode : GoString → Option StreamRequest

/-- The environment in which the two JSON decoders are those of `encoding/json`. -/
def Env.go (marshal : StreamRequest → Except GoString GoString)
    (post : Post → Except GoString Body) (canFlush : Bool) : Env :=
  ⟨marshal, post, canFlush, json.Unmarshal, json.Decode⟩

/-- The lines `log.Printf` prints, without the wall-clock figures. -/
inductive LogEntry where
  /-- The line "Stream Started on %s". -/
  | started (modelType : GoString)
  /-- The line "Stream completed on %s in ... (%d tokens, ...)". -/
  | completed (modelType : GoString) (tokenCount : Nat)
  /-- The line "Streaming error: %v". -/
  | streamingError (err : Error)
deriving DecidableEq, Repr

/-- What one call of `streamChatToHTTP` did. -/
structure Outcome where
  /-- The upstream request `http.Post` was called with, if it was called. -/
  posted : Option Post
  /-- The state of the relay loop when it was left. -/
  relay : Relay
  log : List LogEntry
  /-- The returned error. -/
  err : Option Error
deriving DecidableEq, Repr

/-- Lines 91-135 of `streamChatToHTTP`: the loop over the scanner, given as the lines it
yields and its final error, and the value of `scanner.Err()` on return. After `break`
the scanner has not failed; otherwise the loop ended at the `Scan()` that returned false. -/
def relay (unmarshal : GoString → Option StreamResponse)
    (scanned : List GoString × Option bufio.ScanError) : Relay × Option Error :=
  let st := relayLoop unmarshal scanned.1 Relay.init
  (st, if st.broke then none else scanned.2.map Error.scan)

/-- Lines 66-71: the upstream request. -/
def upstreamRequest (messages : List ChatMessage) : StreamRequest :=
  { Messages := messages
    MaxTokens := 2000
    Temperature := Float64.lit_0_7
    Stream := true
    Model := [] }

/-- The function `streamChatToHTTP`. The parameter `maxTokens` is not used by the body. -/
def streamChatToHTTP (env : Env) (messages : List ChatMessage) (modelEndpoint : GoString)
    (_maxTokens : Int) (modelType : GoString) : Outcome :=
  let request := upstreamRequest messages
  match env.marshal request with
  | .error e => ⟨none, Relay.init, [], some (.marshal e)⟩
  | .ok jsonData =>
    let call : Post := ⟨modelEndpoint, str "application/json", jsonData⟩
    match env.post call with
    | .error e => ⟨some call, Relay.init, [], some (.post e)⟩
    | .ok body =>
      if !env.canFlush then ⟨some call, Relay.init, [], some .streamingNotSupported⟩
      else
        let scanner : bufio.Scanner := ⟨body.data, body.eofWithData⟩
        let done := relay env.unmarshal scanner.run
        ⟨some call, done.1, [.started modelType, .completed modelType done.1.tokenCount], done.2⟩

/-! ## Registry and handlers (lines 38-62, 142-204) -/

/-- The map `models`: identifier to endpoint. -/
def models : List (GoString × GoString) :=
  [ (str "qwen3", str "http://192.168.129.107:8004/v1/chat/completions"),
    (str "lfm2", str "http://192.168.129.109:8004/v1/chat/completions"),
    (str "phi4", str "http://192.168.129.111:8004/v1/chat/completions"),
    (str "gemma", str "http://192.168.129.110:8004/v1/chat/completions") ]

/-- The map `modelInfo` of `modelsHandler`: identifier to display attributes. -/
def modelInfo : List (GoString × List (GoString × GoString)) :=
  [ (str "qwen3", [(str "name", str "Qwen3-0.6B"), (str "description", str "Fast Thinking")]),
    (str "lfm2", [(str "name", str "LFM2-VL-1.6B-Q4_0"), (str "description", str "Fast")]),
    (str "phi4", [(str "name", str "Phi-4-4B"), (str "description", str "Good Responses")]),
    (str "gemma", [(str "name", str "Gemma-3-4B"), (str "description", str "Best Responses")]) ]

/-- The function `createSystemMessage`. -/
def createSystemMessage : ChatMessage :=
  { Role := str "system"
    Content := str "You are an AI assistant running locally on ai.meng.zip infrastructure using modest hardware resources. Current date: Sunday, August 24, 2025. Provide complete, accurate information in concise responses - include all necessary details but keep explanations brief and well-structured to optimize performance. Be direct and efficient while ensuring your answers are fully helpful." }

/-- An inbound HTTP request: its method and its body. -/
structure Request where
  Method : GoString
  Body : GoString
deriving DecidableEq, Repr

/-- The arguments of a call of `streamChatToHTTP` and what the call did. -/
structure StreamCall where
  messages : List ChatMessage
  modelEndpoint : GoString
  maxTokens : Int
  modelType : GoString
  outcome : Outcome
deriving DecidableEq, Repr

/-- What a handler did with the response writer. -/
structure Response where
  /-- The `w.Header().Set(key, value)` calls of the handler, in order. -/
  header : List (GoString × GoString)
  /-- The status code the client sees. -/
  status : Nat
  /-- The bytes written to the client. -/
  body : GoString
  /-- The call of `streamChatToHTTP`, if the handler made it. -/
  stream : Option StreamCall
  log : List LogEntry
deriving DecidableEq, Repr

/-- The function `enableCORS`. -/
def enableCORS : List (GoString × GoString) :=
  [ (str "Access-Control-Allow-Origin", str "*"),
    (str "Access-Control-Allow-Methods", str "GET, POST, OPTIONS"),
    (str "Access-Control-Allow-Headers", str "Content-Type") ]

/-- Go `http.Error(w, msg, code)` after the headers `header`: status `code`, body `msg`
and a newline. -/
def httpError (header : List (GoString × GoString)) (msg : GoString) (code : Nat) : Response :=
  ⟨header, code, msg ++ [10], none, []⟩

/-- Lines 190-193: add the system message if the first message is not one. -/
def addSystemMessage (messages : List ChatMessage) : List ChatMessage :=
  match messages with
  | [] => createSystemMessage :: messages
  | m :: _ => if m.Role ≠ str "system" then createSystemMessage :: messages else messages

/-- The function `chatHandler`. -/
def chatHandler (env : Env) (r : Request) : Response :=
  let header := enableCORS
  if r.Method = str "OPTIONS" then ⟨header, 200, [], none, []⟩
  else if r.Method ≠ str "POST" then httpError header (str "Method not allowed") 405
  else
    match env.decode r.Body with
    | none => httpError header (str "Invalid JSON") 400
    | some req =>
      if req.Model = [] then httpError header (str "No model selected") 400
      else
        match models.lookup req.Model with
        | none => httpError header (str "Model not found") 400
        | some modelEndpoint =>
          let messages := addSystemMessage req.Messages
          let header := header ++
            [ (str "Content-Type", str "text/event-stream"),
              (str "Cache-Control", str "no-cache"),
              (str "Connection", str "keep-alive") ]
          let out := streamChatToHTTP env messages modelEndpoint req.MaxTokens req.Model
          let log := match out.err with
            | some e => out.log ++ [.streamingError e]
            | none => out.log
          ⟨header, 200, out.relay.writes.flatten, some ⟨messages, modelEndpoint, req.MaxTokens, req.Model, out⟩, log⟩

/-- The function `modelsHandler`: the headers it sets and the table it encodes, if any. -/
def modelsHandler (r : Request) :
    List (GoString × GoString) × Option (List (GoString × List (GoString × GoString))) :=
  if r.Method = str "OPTIONS" then (enableCORS, none)
  else (enableCORS ++ [(str "Content-Type", str "application/json")], some modelInfo)

/-! ## Notions used to state the properties -/

/-- The sentinel of the upstream protocol. -/
def sentinel : GoString := str "[DONE]"

/-- The marker of an event-data line. -/
def dataMarker : GoString := str "data: "

/-- Two stretches of the loop one after the other: the second continues the first. -/
def Relay.append (a b : Relay) : Relay :=
  ⟨a.writes ++ b.writes, a.flushes + b.flushes, a.tokenCount + b.tokenCount,
    a.scans + b.scans, a.broke || b.broke⟩

/-- What one pass of the loop body does to the state at a line without the sentinel. -/
def lineStep (unmarshal : GoString → Option StreamResponse) (line : GoString) (st0 : Relay) :
    Relay :=
  let st := { st0 with scans := st0.scans + 1 }
  if line = [] then st
  else if strings.HasPrefix line (str "data: ") then
    match unmarshal (line.drop 6) with
    | none => st
    | some streamResp => (st.forward line).count streamResp
  else st.forward line

/-- Whether the first choice of a parsed chunk carries non-empty content. -/
def hasContent (streamResp : StreamResponse) : Bool :=
  match streamResp.Choices with
  | [] => false
  | c :: _ => decide (c.Delta.Content ≠ [])

/-- Whether a write to the client is a forwarded chunk whose parsed content is not empty:
the written line, without its newline, is an event-data line, and the JSON after the
marker parses to a chunk with content. -/
def parsesWithContent (unmarshal : GoString → Option StreamResponse) (w : GoString) : Bool :=
  strings.HasPrefix w.dropLast dataMarker &&
    match unmarshal (w.dropLast.drop 6) with
    | some streamResp => hasContent streamResp
    | none => false

/-- Whether a write to the client is a forwarded chunk whose parsed content is not empty
and which does not contain the sentinel. -/
def isContentWrite (unmarshal : GoString → Option StreamResponse) (w : GoString) : Bool :=
  !strings.Contains w.dropLast sentinel && parsesWithContent unmarshal w

/-- The body in which each of `lines` is followed by a newline. -/
def bodyOf (lines : List GoString) : GoString :=
  (lines.map fun l => l ++ [10]).flatten

/-! ## Concrete streams and requests -/

namespace Scenario

/-- An event-data line whose chunk carries the content `Hi`. -/
def chunkHi : GoString :=
  str "data: \x7b\"choices\":[\x7b\"delta\":\x7b\"content\":\"Hi\"\x7d\x7d]\x7d"

/-- An event-data line whose chunk carries empty content. -/
def chunkEmpty : GoString :=
  str "data: \x7b\"choices\":[\x7b\"delta\":\x7b\"content\":\"\"\x7d\x7d]\x7d"

/-- An event-data line in braces that is not JSON. -/
def chunkMalformed : GoString := str "data: \x7boops\x7d"

/-- An event-data line whose JSON is well formed and does not fit a chunk: `choices` is
a number, not an array. -/
def chunkMistyped : GoString := str "data: \x7b\"choices\":1\x7d"

/-- An event-data line whose chunk carries a content that contains the sentinel. -/
def chunkSaysDone : GoString :=
  str "data: \x7b\"choices\":[\x7b\"delta\":\x7b\"content\":\"say [DONE] now\"\x7d\x7d]\x7d"

/-- The sentinel line. -/
def done : GoString := str "[DONE]"

/-- A stand-in environment for concrete runs. The two JSON decoders are those of
`encoding/json`. The encoding of the upstream request is not modelled: `json.Marshal`
succeeds with a placeholder body. The upstream service answers every POST with the
body `upstream`, and the response writer can flush. -/
def env (upstream : GoString) : Env :=
  Env.go (fun _ => .ok (str "(request)")) (fun _ => .ok ⟨upstream, false⟩) true

/-- A POST with the JSON body `body`. -/
def post (body : String) : Request := ⟨str "POST", str body⟩

/-- The request with an unknown model and no messages. -/
def unknownModel : Request := post "\x7b\"model\":\"unknown\",\"messages\":[]\x7d"

/-- The request with one user message for the model `qwen3`. -/
def hi : Request :=
  post "\x7b\"messages\":[\x7b\"role\":\"user\",\"content\":\"hi\"\x7d],\"model\":\"qwen3\"\x7d"

/-- The same request with limits of its own. -/
def hiWithLimits : Request :=
  post "\x7b\"messages\":[\x7b\"role\":\"user\",\"content\":\"hi\"\x7d],\"model\":\"qwen3\",\"max_tokens\":9000,\"temperature\":1.5\x7d"

/-- A POST whose body is the value `null` with a byte right after it. -/
def nullThenJunk : Request := post "nullx"

/-- A request whose second message is a system message. -/
def lateSystem : Request :=
  post "\x7b\"model\":\"qwen3\",\"messages\":[\x7b\"role\":\"user\",\"content\":\"hi\"\x7d,\x7b\"role\":\"system\",\"content\":\"be brief\"\x7d]\x7d"

end Scenario

/-! ## The JSON parser has fuel enough -/

namespace json

theorem skipSpace_length_le (s : GoString) : (skipSpace s).length ≤ s.length := by
  induction s with
  | nil => simp [skipSpace]
  | cons c t ih =>
    unfold skipSpace
    split
    · simp only [List.length_cons]; omega
    · simp

theorem utf8Len_pos (s : GoString) (n : Nat) (h : utf8Len s = some n) : 1 ≤ n := by
  unfold utf8Len at h
  repeat' split at h
  all_goals first
    | (injection h with h; omega)
    | cases h

/-- A piece of a string literal leaves no more input than follows its first byte. -/
theorem stringPiece_length_le (c : Byte) (t piece rest : GoString)
    (h : stringPiece c t = some (piece, rest)) : rest.length ≤ t.length := by
  unfold stringPiece at h
  split at h
  · split at h
    · exact absurd h (by simp)
    · rename_i e t1
      split at h
      · split at h
        · exact absurd h (by simp)
        · have hdrop : (List.drop 4 t1).length ≤ (e :: t1).length := by
            simp only [List.length_drop, List.length_cons]; omega
          split at h
          · split at h
            · rename_i t3 heq
              have h3 : (List.drop 4 t3).length ≤ (List.drop 4 t1).length := by
                rw [heq]; simp only [List.length_drop, List.length_cons]; omega
              split at h
              · split at h
                · injection h with h; injection h with _ h; rw [← h]; omega
                · injection h with h; injection h with _ h; rw [← h]; exact hdrop
              · injection h with h; injection h with _ h; rw [← h]; exact hdrop
            · injection h with h; injection h with _ h; rw [← h]; exact hdrop
          · injection h with h; injection h with _ h; rw [← h]; exact hdrop
      · cases hb : escapeByte e with
        | none => rw [hb] at h; exact absurd h (by simp)
        | some b =>
          rw [hb] at h
          simp only [Option.map_some', Option.some.injEq, Prod.mk.injEq] at h
          rw [← h.2]; simp
  · split at h
    · exact absurd h (by simp)
    · split at h
      · injection h with h; injection h with _ h; rw [← h]
      · split at h
        · rename_i n hn
          have := utf8Len_pos _ n hn
          injection h with h; injection h with _ h; rw [← h]
          simp only [List.length_drop, List.length_cons]; omega
        · injection h with h; injection h with _ h; rw [← h]

/-- A string literal consumes input. -/
theorem parseString_rest_lt (fuel : Nat) (s x r : GoString)
    (h : parseString fuel s = some (x, r)) : r.length < s.length := by
  induction fuel generalizing s x r with
  | zero => exact absurd h (by simp [parseString])
  | succ fuel ih =>
    simp only [parseString] at h
    split at h
    · exact absurd h (by simp)
    · rename_i c t
      split at h
      · injection h with h; injection h with _ h; rw [← h]; simp
      · split at h
        · exact absurd h (by simp)
        · rename_i piece rest hpiece
          have hle := stringPiece_length_le c t piece rest hpiece
          cases hrec : parseString fuel rest with
          | none => rw [hrec] at h; exact absurd h (by simp)
          | some p =>
            obtain ⟨p1, p2⟩ := p
            rw [hrec] at h
            simp only [Option.map_some', Option.some.injEq, Prod.mk.injEq] at h
            have := ih rest p1 p2 hrec
            rw [← h.2]
            simp only [List.length_cons]
            omega

/-- Fuel beyond the length of the input changes nothing for a string literal. -/
theorem parseString_fuel (fuel : Nat) (s : GoString) (h : s.length < fuel) :
    parseString fuel s = parseString (s.length + 1) s := by
  induction fuel using Nat.strong_induction_on generalizing s with
  | _ fuel ih =>
    cases fuel with
    | zero => exact absurd h (Nat.not_lt_zero _)
    | succ fuel =>
      simp only [parseString]
      cases s with
      | nil => rfl
      | cons c t =>
        simp only []
        split
        · rfl
        · cases hpiece : stringPiece c t with
          | none => rfl
          | some p =>
            obtain ⟨piece, rest⟩ := p
            have hle := stringPiece_length_le c t piece rest hpiece
            simp only [List.length_cons] at h ⊢
            rw [ih fuel (Nat.lt_succ_self _) rest (by omega)]
            by_cases hfuel : t.length + 1 = fuel
            · rw [hfuel, ih fuel (Nat.lt_succ_self _) rest (by omega)]
            · rw [ih (t.length + 1) (by omega) rest (by omega)]

theorem span_snd_length_le (p : Byte → Bool) (l : GoString) :
    (l.span p).2.length ≤ l.length := by
  rw [List.span_eq_take_drop]
  exact (List.dropWhile_sublist p).length_le

theorem parseExp_rest_le (lit s x r : GoString) (h : parseExp lit s = some (x, r)) :
    r.length ≤ s.length := by
  unfold parseExp at h
  split at h
  · injection h with h; injection h with _ h; rw [← h]
  · rename_i c t
    simp only [] at h
    split at h
    · split at h
      · exact absurd h (by simp)
      · injection h with h; injection h with _ h
        rw [← h]
        refine Nat.le_trans (span_snd_length_le _ _) ?_
        split
        · rename_i x1 t1
          split <;> simp only [List.length_cons] <;> omega
        · simp
    · injection h with h; injection h with _ h; rw [← h]

theorem parseFrac_rest_le (lit s x r : GoString) (h : parseFrac lit s = some (x, r)) :
    r.length ≤ s.length := by
  unfold parseFrac at h
  split at h
  · rename_i t
    simp only [] at h
    split at h
    · exact absurd h (by simp)
    · have h1 := parseExp_rest_le _ _ _ _ h
      have h2 := span_snd_length_le isDigit t
      simp only [List.length_cons]
      omega
  · exact parseExp_rest_le _ _ _ _ h

/-- A number consumes input. -/
theorem parseNumber_rest_lt (s x r : GoString) (h : parseNumber s = some (x, r)) :
    r.length < s.length := by
  unfold parseNumber at h
  simp only [] at h
  have hsigned : ∀ (d : Byte) (t : GoString),
      (match s with
        | 45 :: t => (([45] : GoString), t)
        | _ => ([], s)).2 = d :: t → t.length < s.length := by
    intro d t heq
    split at heq
    · simp only at heq; rw [heq]; simp only [List.length_cons]; omega
    · simp only at heq; rw [heq]; simp
  split at h
  · exact absurd h (by simp)
  · rename_i d t heq
    have hlt := hsigned d t heq
    split at h
    · have := parseFrac_rest_le _ _ _ _ h
      omega
    · split at h
      · have h1 := parseFrac_rest_le _ _ _ _ h
        have h2 := span_snd_length_le isDigit t
        omega
      · exact absurd h (by simp)

theorem map_rest_eq_some {α β : Type} (o : Option (α × GoString)) (f : α → β) (v : β)
    (r : GoString) (h : (o.map fun p => (f p.1, p.2)) = some (v, r)) :
    ∃ a, o = some (a, r) := by
  cases o with
  | none => exact absurd h (by simp)
  | some p =>
    obtain ⟨a, b⟩ := p
    simp only [Option.map_some', Option.some.injEq, Prod.mk.injEq] at h
    exact ⟨a, by rw [h.2]⟩

/-- A value, the elements of an array and the members of an object consume input. -/
theorem parse_rest_lt (fuel : Nat) :
    (∀ depth s v r, parseValue fuel depth s = some (v, r) → r.length < s.length) ∧
      (∀ depth s vs r, parseElems fuel depth s = some (vs, r) → r.length < s.length) ∧
      (∀ depth s ms r, parseMembers fuel depth s = some (ms, r) → r.length < s.length) := by
  induction fuel with
  | zero =>
    refine ⟨?_, ?_, ?_⟩ <;> intro depth s v r h
    · exact absurd h (by simp [parseValue])
    · exact absurd h (by simp [parseElems])
    · exact absurd h (by simp [parseMembers])
  | succ fuel ih =>
    obtain ⟨ihv, ihe, ihm⟩ := ih
    refine ⟨?_, ?_, ?_⟩
    · intro depth s v r h
      simp only [parseValue] at h
      split at h
      · exact absurd h (by simp)
      · rename_i c t
        have hskip := skipSpace_length_le t
        split at h
        · split at h
          · exact absurd h (by simp)
          · split at h
            · exact absurd h (by simp)
            · rename_i c1 r1 heq
              rw [heq] at hskip
              simp only [List.length_cons] at hskip ⊢
              split at h
              · injection h with h; injection h with _ h; rw [← h]; omega
              · obtain ⟨a, ha⟩ := map_rest_eq_some _ Value.array _ _ h
                have := ihe _ _ _ _ ha
                simp only [List.length_cons] at this
                omega
        · split at h
          · split at h
            · exact absurd h (by simp)
            · split at h
              · exact absurd h (by simp)
              · rename_i c1 r1 heq
                rw [heq] at hskip
                simp only [List.length_cons] at hskip ⊢
                split at h
                · injection h with h; injection h with _ h; rw [← h]; omega
                · obtain ⟨a, ha⟩ := map_rest_eq_some _ Value.object _ _ h
                  have := ihm _ _ _ _ ha
                  simp only [List.length_cons] at this
                  omega
          · split at h
            · obtain ⟨a, ha⟩ := map_rest_eq_some _ Value.string _ _ h
              have := parseString_rest_lt _ _ _ _ ha
              simp only [List.length_cons]
              omega
            · split at h
              · obtain ⟨a, ha⟩ := map_rest_eq_some _ Value.number _ _ h
                exact parseNumber_rest_lt _ _ _ ha
              · split at h
                · injection h with h; injection h with _ h; rw [← h]
                  simp only [List.length_drop, List.length_cons]; omega
                · split at h
                  · injection h with h; injection h with _ h; rw [← h]
                    simp only [List.length_drop, List.length_cons]; omega
                  · split at h
                    · injection h with h; injection h with _ h; rw [← h]
                      simp only [List.length_drop, List.length_cons]; omega
                    · exact absurd h (by simp)
    · intro depth s vs r h
      simp only [parseElems] at h
      split at h
      · exact absurd h (by simp)
      · rename_i v r0 hv
        have h0 := ihv _ _ _ _ hv
        have hskip := skipSpace_length_le r0
        split at h
        · exact absurd h (by simp)
        · rename_i c r1 heq
          rw [heq] at hskip
          simp only [List.length_cons] at hskip
          split at h
          · obtain ⟨a, ha⟩ := map_rest_eq_some _ (fun x => v :: x) _ _ h
            have h1 := ihe _ _ _ _ ha
            have h2 := skipSpace_length_le r1
            omega
          · split at h
            · injection h with h; injection h with _ h; rw [← h]; omega
            · exact absurd h (by simp)
    · intro depth s ms r h
      simp only [parseMembers] at h
      split at h
      · exact absurd h (by simp)
      · rename_i q t
        split at h
        · exact absurd h (by simp)
        · split at h
          · exact absurd h (by simp)
          · rename_i key r0 hkey
            have h0 := parseString_rest_lt _ _ _ _ hkey
            have hskip0 := skipSpace_length_le r0
            split at h
            · exact absurd h (by simp)
            · rename_i colon r1 heq1
              rw [heq1] at hskip0
              split at h
              · exact absurd h (by simp)
              · split at h
                · exact absurd h (by simp)
                · rename_i v r2 hv
                  have h2 := ihv _ _ _ _ hv
                  have hskip1 := skipSpace_length_le r1
                  have hskip2 := skipSpace_length_le r2
                  split at h
                  · exact absurd h (by simp)
                  · rename_i c r3 heq3
                    rw [heq3] at hskip2
                    simp only [List.length_cons] at hskip0 hskip2 ⊢
                    split at h
                    · obtain ⟨a, ha⟩ := map_rest_eq_some _ (fun x => (key, v) :: x) _ _ h
                      have h3 := ihm _ _ _ _ ha
                      have hskip3 := skipSpace_length_le r3
                      omega
                    · split at h
                      · injection h with h; injection h with _ h; rw [← h]; omega
                      · exact absurd h (by simp)

/-- Fuel beyond twice the length of the input changes nothing. -/
theorem parse_fuel_indep (fuel : Nat) :
    (∀ depth s fuel', 2 * s.length ≤ fuel → fuel ≤ fuel' →
        parseValue fuel' depth s = parseValue fuel depth s) ∧
      (∀ depth s fuel', 2 * s.length + 1 ≤ fuel → fuel ≤ fuel' →
        parseElems fuel' depth s = parseElems fuel depth s) ∧
      (∀ depth s fuel', 2 * s.length + 1 ≤ fuel → fuel ≤ fuel' →
        parseMembers fuel' depth s = parseMembers fuel depth s) := by
  induction fuel with
  | zero =>
    refine ⟨?_, ?_, ?_⟩ <;> intro depth s fuel' hs hf
    · have : s = [] := List.length_eq_zero.mp (by omega)
      subst this
      cases fuel' <;> simp [parseValue]
    · omega
    · omega
  | succ fuel ih =>
    obtain ⟨ihv, ihe, ihm⟩ := ih
    refine ⟨?_, ?_, ?_⟩
    · intro depth s fuel' hs hf
      obtain ⟨f, rfl⟩ : ∃ f, fuel' = f + 1 := ⟨fuel' - 1, by omega⟩
      have hf' : fuel ≤ f := by omega
      simp only [parseValue]
      cases s with
      | nil => rfl
      | cons c t =>
        simp only [List.length_cons] at hs
        have hskip := skipSpace_length_le t
        simp only []
        split
        · split
          · rfl
          · split
            · rfl
            · rename_i c1 r1 heq
              rw [heq] at hskip
              simp only [List.length_cons] at hskip
              rw [ihe (depth + 1) (c1 :: r1) f (by simp only [List.length_cons]; omega) hf']
        · split
          · split
            · rfl
            · split
              · rfl
              · rename_i c1 r1 heq
                rw [heq] at hskip
                simp only [List.length_cons] at hskip
                rw [ihm (depth + 1) (c1 :: r1) f (by simp only [List.length_cons]; omega) hf']
          · rfl
    · intro depth s fuel' hs hf
      obtain ⟨f, rfl⟩ : ∃ f, fuel' = f + 1 := ⟨fuel' - 1, by omega⟩
      have hf' : fuel ≤ f := by omega
      simp only [parseElems]
      rw [ihv depth s f (by omega) hf']
      split
      · rfl
      · rename_i v r0 hv
        have h0 := (parse_rest_lt fuel).1 _ _ _ _ hv
        have hskip := skipSpace_length_le r0
        split
        · rfl
        · rename_i c r1 heq
          rw [heq] at hskip
          simp only [List.length_cons] at hskip
          have hskip1 := skipSpace_length_le r1
          rw [ihe depth (skipSpace r1) f (by omega) hf']
    · intro depth s fuel' hs hf
      obtain ⟨f, rfl⟩ : ∃ f, fuel' = f + 1 := ⟨fuel' - 1, by omega⟩
      have hf' : fuel ≤ f := by omega
      simp only [parseMembers]
      split
      · rfl
      · rename_i q t
        simp only [List.length_cons] at hs
        split
        · rfl
        · split
          · rfl
          · rename_i key r0 hkey
            have h0 := parseString_rest_lt _ _ _ _ hkey
            have hskip0 := skipSpace_length_le r0
            split
            · rfl
            · rename_i colon r1 heq1
              rw [heq1] at hskip0
              simp only [List.length_cons] at hskip0
              have hskip1 := skipSpace_length_le r1
              rw [ihv depth (skipSpace r1) f (by omega) hf']
              split
              · rfl
              · split
                · rfl
                · rename_i v r2 hv
                  have h2 := (parse_rest_lt fuel).1 _ _ _ _ hv
                  have hskip2 := skipSpace_length_le r2
                  split
                  · rfl
                  · rename_i c r3 heq3
                    rw [heq3] at hskip2
                    simp only [List.length_cons] at hskip2
                    have hskip3 := skipSpace_length_le r3
                    rw [ihm depth (skipSpace r3) f (by omega) hf']

/-- The parser does not run out of fuel: any fuel beyond that of `parse` gives the result
of `parse`. -/
theorem parse_fuel (data : GoString) (fuel : Nat) (h : 2 * data.length + 2 ≤ fuel) :
    parseValue fuel 0 (skipSpace data) = parse data := by
  have hskip := skipSpace_length_le data
  exact (parse_fuel_indep (2 * data.length + 2)).1 0 (skipSpace data) fuel (by omega) h

end json

/-- Fuel beyond the number itself changes nothing for the count of binary digits. -/
theorem strconv.bitLen_fuel (n fuel : Nat) (h : n ≤ fuel) :
    strconv.bitLen fuel n = strconv.bitLen n n := by
  induction n using Nat.strong_induction_on generalizing fuel with
  | _ n ih =>
    cases n with
    | zero => cases fuel <;> simp [strconv.bitLen]
    | succ m =>
      obtain ⟨f, rfl⟩ : ∃ f, fuel = f + 1 := ⟨fuel - 1, by omega⟩
      have hhalf : (m + 1) / 2 ≤ m := by omega
      simp only [strconv.bitLen]
      rw [ih ((m + 1) / 2) (by omega) f (by omega), ih ((m + 1) / 2) (by omega) m hhalf]

/-! ## The relay loop, stretch by stretch -/

theorem Relay.init_append (a : Relay) : Relay.init.append a = a := by
  cases a
  simp [Relay.append, Relay.init]

theorem Relay.append_assoc (a b c : Relay) : (a.append b).append c = a.append (b.append c) := by
  simp [Relay.append, List.append_assoc, Nat.add_assoc, Bool.or_assoc]

theorem Relay.forward_eq_append (st : Relay) (line : GoString) :
    st.forward line = st.append (Relay.init.forward line) := by
  simp [Relay.append, Relay.forward, Relay.init]

theorem Relay.count_eq_append (st : Relay) (r : StreamResponse) :
    st.count r = st.append (Relay.init.count r) := by
  unfold Relay.count
  cases r.Choices with
  | nil => simp [Relay.append, Relay.init]
  | cons c cs =>
    by_cases h : c.Delta.Content = [] <;> simp [h, Relay.append, Relay.init]

/-- The loop from any state is the loop from the initial state, continued from there. -/
theorem relayLoop_eq_append (unmarshal : GoString → Option StreamResponse)
    (lines : List GoString) (st : Relay) :
    relayLoop unmarshal lines st = st.append (relayLoop unmarshal lines Relay.init) := by
  induction lines generalizing st with
  | nil => cases st; simp [relayLoop, Relay.append, Relay.init]
  | cons line rest ih =>
    have hscan : ∀ s : Relay, ({ s with scans := s.scans + 1 } : Relay) =
        s.append { Relay.init with scans := Relay.init.scans + 1 } := by
      intro s; simp [Relay.append, Relay.init]
    unfold relayLoop
    simp only []
    split
    · rw [ih, ih ({ Relay.init with scans := Relay.init.scans + 1 }), hscan st,
        Relay.append_assoc]
    · split
      · simp [Relay.append, Relay.forward, Relay.init]
      · split
        · split
          · rw [ih, ih ({ Relay.init with scans := Relay.init.scans + 1 }), hscan st,
              Relay.append_assoc]
          · rename_i r _
            rw [ih, ih ((Relay.forward _ line).count r), hscan st,
              Relay.count_eq_append, Relay.forward_eq_append,
              Relay.count_eq_append (Relay.forward _ line),
              Relay.forward_eq_append { Relay.init with scans := Relay.init.scans + 1 }]
            simp only [Relay.append_assoc]
        · rw [ih, ih (Relay.forward _ line), hscan st, Relay.forward_eq_append,
            Relay.forward_eq_append { Relay.init with scans := Relay.init.scans + 1 }]
          simp only [Relay.append_assoc]

theorem contains_nil_sentinel : strings.Contains [] (str "[DONE]") = false := by decide

/-- The loop at a line without the sentinel: one pass of the body, then the loop goes on. -/
theorem relayLoop_cons (unmarshal : GoString → Option StreamResponse)
    (line : GoString) (rest : List GoString) (st : Relay)
    (hline : strings.Contains line (str "[DONE]") = false) :
    relayLoop unmarshal (line :: rest) st = relayLoop unmarshal rest (lineStep unmarshal line st) := by
  rw [relayLoop]
  simp only [hline, lineStep]
  split
  · rfl
  · simp only [Bool.false_eq_true, if_false]
    split
    · split <;> rfl
    · rfl

/-- The loop at a line that contains the sentinel. -/
theorem relayLoop_sentinel (unmarshal : GoString → Option StreamResponse)
    (d : GoString) (post : List GoString) (st : Relay)
    (hd : strings.Contains d (str "[DONE]") = true) :
    relayLoop unmarshal (d :: post) st =
      { ({ st with scans := st.scans + 1 } : Relay).forward d with broke := true } := by
  have hne : d ≠ [] := by
    intro h
    rw [h, contains_nil_sentinel] at hd
    exact Bool.noConfusion hd
  rw [relayLoop]
  simp [hne, hd]

theorem Relay.count_broke (st : Relay) (r : StreamResponse) : (st.count r).broke = st.broke := by
  unfold Relay.count
  split
  · rfl
  · split <;> rfl

theorem Relay.count_scans (st : Relay) (r : StreamResponse) : (st.count r).scans = st.scans := by
  unfold Relay.count
  split
  · rfl
  · split <;> rfl

theorem Relay.count_writes (st : Relay) (r : StreamResponse) :
    (st.count r).writes = st.writes := by
  unfold Relay.count
  split
  · rfl
  · split <;> rfl

theorem Relay.count_flushes (st : Relay) (r : StreamResponse) :
    (st.count r).flushes = st.flushes := by
  unfold Relay.count
  split
  · rfl
  · split <;> rfl

theorem lineStep_broke (unmarshal : GoString → Option StreamResponse) (line : GoString)
    (st : Relay) : (lineStep unmarshal line st).broke = st.broke := by
  unfold lineStep
  simp only []
  split
  · rfl
  · split
    · split
      · rfl
      · rw [Relay.count_broke]; rfl
    · rfl

theorem lineStep_scans (unmarshal : GoString → Option StreamResponse) (line : GoString)
    (st : Relay) : (lineStep unmarshal line st).scans = st.scans + 1 := by
  unfold lineStep
  simp only []
  split
  · rfl
  · split
    · split
      · rfl
      · rw [Relay.count_scans]; rfl
    · rfl

/-- A stretch without the sentinel is run to its end, and the loop goes on after it. -/
theorem relayLoop_append (unmarshal : GoString → Option StreamResponse)
    (pre post : List GoString) (st : Relay)
    (hpre : ∀ l ∈ pre, strings.Contains l (str "[DONE]") = false) :
    relayLoop unmarshal (pre ++ post) st = relayLoop unmarshal post (relayLoop unmarshal pre st) := by
  induction pre generalizing st with
  | nil => simp [relayLoop]
  | cons line rest ih =>
    have hline := hpre line (List.mem_cons_self _ _)
    have hrest : ∀ l ∈ rest, strings.Contains l (str "[DONE]") = false :=
      fun l hl => hpre l (List.mem_cons_of_mem _ hl)
    rw [List.cons_append, relayLoop_cons _ _ _ _ hline, relayLoop_cons _ _ _ _ hline,
      ih _ hrest]

/-- A stretch without the sentinel does not leave the loop. -/
theorem relayLoop_broke (unmarshal : GoString → Option StreamResponse)
    (pre : List GoString) (st : Relay)
    (hpre : ∀ l ∈ pre, strings.Contains l (str "[DONE]") = false) :
    (relayLoop unmarshal pre st).broke = st.broke := by
  induction pre generalizing st with
  | nil => simp [relayLoop]
  | cons line rest ih =>
    have hline := hpre line (List.mem_cons_self _ _)
    have hrest : ∀ l ∈ rest, strings.Contains l (str "[DONE]") = false :=
      fun l hl => hpre l (List.mem_cons_of_mem _ hl)
    rw [relayLoop_cons _ _ _ _ hline, ih _ hrest, lineStep_broke]

/-- The number of lines a stretch without the sentinel takes from the scanner. -/
theorem relayLoop_scans (unmarshal : GoString → Option StreamResponse)
    (pre : List GoString) (st : Relay)
    (hpre : ∀ l ∈ pre, strings.Contains l (str "[DONE]") = false) :
    (relayLoop unmarshal pre st).scans = st.scans + pre.length := by
  induction pre generalizing st with
  | nil => simp [relayLoop]
  | cons line rest ih =>
    have hline := hpre line (List.mem_cons_self _ _)
    have hrest : ∀ l ∈ rest, strings.Contains l (str "[DONE]") = false :=
      fun l hl => hpre l (List.mem_cons_of_mem _ hl)
    rw [relayLoop_cons _ _ _ _ hline, ih _ hrest, lineStep_scans, List.length_cons]
    omega

/-- C3: the first line that contains the sentinel `[DONE]` is forwarded verbatim and is
the last line forwarded. With `pre` the lines before it and `post` whatever follows it in
the stream, the loop ends through `break` right after writing that line: its last write
is the line and a newline, it has taken `pre.length + 1` lines from the scanner, so none
of `post`, its whole final state is the one it has without `post`, and no error is
returned whatever the scanner would have met further on. -/
theorem sentinel_line_is_last (unmarshal : GoString → Option StreamResponse)
    (pre : List GoString) (d : GoString) (post : List GoString)
    (hpre : ∀ l ∈ pre, strings.Contains l (str "[DONE]") = false)
    (hd : strings.Contains d (str "[DONE]") = true) :
    (relayLoop unmarshal (pre ++ d :: post) Relay.init).writes =
        (relayLoop unmarshal pre Relay.init).writes ++ [d ++ [10]] ∧
      (relayLoop unmarshal (pre ++ d :: post) Relay.init).writes.getLast? = some (d ++ [10]) ∧
      (relayLoop unmarshal (pre ++ d :: post) Relay.init).broke = true ∧
      (relayLoop unmarshal (pre ++ d :: post) Relay.init).scans = pre.length + 1 ∧
      relayLoop unmarshal (pre ++ d :: post) Relay.init =
        relayLoop unmarshal (pre ++ [d]) Relay.init ∧
      (∀ err : Option bufio.ScanError, (relay unmarshal (pre ++ d :: post, err)).2 = none) := by
  have key : ∀ rest : List GoString, relayLoop unmarshal (pre ++ d :: rest) Relay.init =
      { ({ relayLoop unmarshal pre Relay.init with
            scans := (relayLoop unmarshal pre Relay.init).scans + 1 } : Relay).forward d
          with broke := true } := by
    intro rest
    rw [relayLoop_append unmarshal pre (d :: rest) Relay.init hpre,
      relayLoop_sentinel unmarshal d rest _ hd]
  have hscans := relayLoop_scans unmarshal pre Relay.init hpre
  simp only [Relay.init, Nat.zero_add] at hscans
  refine ⟨?_, ?_, ?_, ?_, ?_, ?_⟩
  · rw [key]; rfl
  · rw [key]; simp [Relay.forward]
  · rw [key]
  · rw [key]; simp only [Relay.forward, Relay.init]; rw [hscans]
  · rw [key, key]
  · intro err
    simp only [relay]
    rw [key]
    rfl

/-- C3 at a concrete stream: after `data: [DONE]` the line `late` is not forwarded. -/
theorem sentinel_line_is_last_witness :
    ((∀ l ∈ [str ": ping"], strings.Contains l (str "[DONE]") = false) ∧
      strings.Contains (str "data: [DONE]") (str "[DONE]") = true) ∧
    (relayLoop json.Unmarshal ([str ": ping"] ++ str "data: [DONE]" :: [str "late"])
        Relay.init).writes.getLast? = some (str "data: [DONE]" ++ [10]) ∧
    (relayLoop json.Unmarshal ([str ": ping"] ++ str "data: [DONE]" :: [str "late"])
        Relay.init).scans = [str ": ping"].length + 1 :=
  ⟨⟨by decide, by decide⟩,
    (sentinel_line_is_last json.Unmarshal [str ": ping"] (str "data: [DONE]") [str "late"]
      (by decide) (by decide)).2.1,
    (sentinel_line_is_last json.Unmarshal [str ": ping"] (str "data: [DONE]") [str "late"]
      (by decide) (by decide)).2.2.2.1⟩

/-- The loop at an event-data line whose JSON does not parse: only the scan is counted. -/
theorem lineStep_malformed (unmarshal : GoString → Option StreamResponse) (bad : GoString)
    (st : Relay) (hmark : strings.HasPrefix bad (str "data: ") = true)
    (hparse : unmarshal (bad.drop 6) = none) :
    lineStep unmarshal bad st = { st with scans := st.scans + 1 } := by
  unfold lineStep
  simp only [hmark, hparse]
  split <;> rfl

/-- Two runs of the loop over the same lines from states that differ in the scan count
only differ in the scan count only. -/
theorem relayLoop_scans_irrelevant (unmarshal : GoString → Option StreamResponse)
    (lines : List GoString) (st : Relay) (n : Nat) :
    (relayLoop unmarshal lines { st with scans := n }).writes =
        (relayLoop unmarshal lines st).writes ∧
      (relayLoop unmarshal lines { st with scans := n }).flushes =
        (relayLoop unmarshal lines st).flushes ∧
      (relayLoop unmarshal lines { st with scans := n }).tokenCount =
        (relayLoop unmarshal lines st).tokenCount ∧
      (relayLoop unmarshal lines { st with scans := n }).broke =
        (relayLoop unmarshal lines st).broke := by
  rw [relayLoop_eq_append unmarshal lines st,
    relayLoop_eq_append unmarshal lines { st with scans := n }]
  simp [Relay.append]

/-- Taking a malformed chunk out of the stream changes nothing but the scan count. -/
theorem relayLoop_without_malformed (unmarshal : GoString → Option StreamResponse)
    (pre : List GoString) (bad : GoString) (post : List GoString) (st : Relay)
    (hmark : strings.HasPrefix bad (str "data: ") = true)
    (hdone : strings.Contains bad (str "[DONE]") = false)
    (hparse : unmarshal (bad.drop 6) = none) :
    (relayLoop unmarshal (pre ++ bad :: post) st).writes =
        (relayLoop unmarshal (pre ++ post) st).writes ∧
      (relayLoop unmarshal (pre ++ bad :: post) st).flushes =
        (relayLoop unmarshal (pre ++ post) st).flushes ∧
      (relayLoop unmarshal (pre ++ bad :: post) st).tokenCount =
        (relayLoop unmarshal (pre ++ post) st).tokenCount ∧
      (relayLoop unmarshal (pre ++ bad :: post) st).broke =
        (relayLoop unmarshal (pre ++ post) st).broke := by
  induction pre generalizing st with
  | nil =>
    rw [List.nil_append, List.nil_append, relayLoop_cons _ _ _ _ hdone,
      lineStep_malformed _ _ _ hmark hparse]
    exact relayLoop_scans_irrelevant unmarshal post st (st.scans + 1)
  | cons line rest ih =>
    rw [List.cons_append, List.cons_append]
    cases hline : strings.Contains line (str "[DONE]") with
    | true =>
      rw [relayLoop_sentinel _ _ _ _ hline, relayLoop_sentinel _ _ _ _ hline]
      exact ⟨rfl, rfl, rfl, rfl⟩
    | false =>
      rw [relayLoop_cons _ _ _ _ hline, relayLoop_cons _ _ _ _ hline]
      exact ih _

/-- C5: an event-data line without the sentinel whose remainder fails to parse is
skipped silently. Read in any state, it leaves the writes, the flushes, the token count
and the loop itself untouched (only the scan is counted); and with that line anywhere in
a stream, the writes, flushes, token count, the way the loop ends and the error that is
returned are those of the stream without the line. -/
theorem malformed_chunk_is_skipped (unmarshal : GoString → Option StreamResponse)
    (pre : List GoString) (bad : GoString) (post : List GoString)
    (err : Option bufio.ScanError)
    (hmark : strings.HasPrefix bad (str "data: ") = true)
    (hdone : strings.Contains bad (str "[DONE]") = false)
    (hparse : unmarshal (bad.drop 6) = none) :
    (∀ st : Relay, relayLoop unmarshal [bad] st = { st with scans := st.scans + 1 }) ∧
      (relay unmarshal (pre ++ bad :: post, err)).1.writes =
        (relay unmarshal (pre ++ post, err)).1.writes ∧
      (relay unmarshal (pre ++ bad :: post, err)).1.flushes =
        (relay unmarshal (pre ++ post, err)).1.flushes ∧
      (relay unmarshal (pre ++ bad :: post, err)).1.tokenCount =
        (relay unmarshal (pre ++ post, err)).1.tokenCount ∧
      (relay unmarshal (pre ++ bad :: post, err)).1.broke =
        (relay unmarshal (pre ++ post, err)).1.broke ∧
      (relay unmarshal (pre ++ bad :: post, err)).2 = (relay unmarshal (pre ++ post, err)).2 := by
  have h := relayLoop_without_malformed unmarshal pre bad post Relay.init hmark hdone hparse
  refine ⟨?_, h.1, h.2.1, h.2.2.1, h.2.2.2, ?_⟩
  · intro st
    rw [relayLoop_cons _ _ _ _ hdone, lineStep_malformed _ _ _ hmark hparse, relayLoop]
  · simp only [relay]
    rw [h.2.2.2]

/-- C5 at a concrete stream: the malformed line between a chunk and the sentinel. -/
theorem malformed_chunk_is_skipped_witness :
    (strings.HasPrefix Scenario.chunkMalformed (str "data: ") = true ∧
      strings.Contains Scenario.chunkMalformed (str "[DONE]") = false ∧
      json.Unmarshal (Scenario.chunkMalformed.drop 6) = none) ∧
    (relay json.Unmarshal
        ([Scenario.chunkHi] ++ Scenario.chunkMalformed :: [Scenario.done], none)).1.writes =
      (relay json.Unmarshal ([Scenario.chunkHi] ++ [Scenario.done], none)).1.writes :=
  ⟨⟨by decide, by decide, by decide⟩,
    (malformed_chunk_is_skipped json.Unmarshal [Scenario.chunkHi] Scenario.chunkMalformed
      [Scenario.done] none (by decide) (by decide) (by decide)).2.1⟩

/-! ## Event-data lines -/

/-- The loop at an event-data line whose JSON parses: forwarded, then counted. -/
theorem lineStep_chunk (unmarshal : GoString → Option StreamResponse) (line : GoString)
    (st : Relay) (r : StreamResponse) (hmark : strings.HasPrefix line (str "data: ") = true)
    (hparse : unmarshal (line.drop 6) = some r) :
    lineStep unmarshal line st = (({ st with scans := st.scans + 1 } : Relay).forward line).count r := by
  have hne : line ≠ [] := by
    intro h
    rw [h] at hmark
    exact absurd hmark (by decide)
  unfold lineStep
  simp only [hmark, hparse, hne, if_false, if_true]

/-- The writes of the loop only grow: those of a stretch of lines are the first writes of
any longer stream. -/
theorem relayLoop_writes_prefix (unmarshal : GoString → Option StreamResponse)
    (pre post : List GoString) (st : Relay) :
    (relayLoop unmarshal pre st).writes <+: (relayLoop unmarshal (pre ++ post) st).writes := by
  induction pre generalizing st with
  | nil =>
    rw [List.nil_append, relayLoop_eq_append unmarshal post st]
    simp [relayLoop, Relay.append]
  | cons line rest ih =>
    rw [List.cons_append]
    cases hline : strings.Contains line (str "[DONE]") with
    | true =>
      rw [relayLoop_sentinel _ _ _ _ hline, relayLoop_sentinel _ _ _ _ hline]
    | false =>
      rw [relayLoop_cons _ _ _ _ hline, relayLoop_cons _ _ _ _ hline]
      exact ih _

/-- C4, as the code has it: an event-data line that the loop reads (no earlier line has
the sentinel) is forwarded unchanged when it contains the sentinel or when the JSON
after the `data: ` prefix parses as a chunk; when it does not contain the sentinel and
the JSON fails to parse, nothing is written for it. What has been written for the lines
up to it stays in front of whatever the rest of the stream adds. -/
theorem data_line_forwarded_iff_parsed (unmarshal : GoString → Option StreamResponse)
    (pre : List GoString) (line : GoString) (post : List GoString)
    (hpre : ∀ l ∈ pre, strings.Contains l (str "[DONE]") = false)
    (hmark : strings.HasPrefix line (str "data: ") = true) :
    (strings.Contains line (str "[DONE]") = true ∨ (unmarshal (line.drop 6)).isSome = true →
        (relayLoop unmarshal (pre ++ [line]) Relay.init).writes =
          (relayLoop unmarshal pre Relay.init).writes ++ [line ++ [10]]) ∧
      (strings.Contains line (str "[DONE]") = false ∧ unmarshal (line.drop 6) = none →
        (relayLoop unmarshal (pre ++ [line]) Relay.init).writes =
          (relayLoop unmarshal pre Relay.init).writes) ∧
      (relayLoop unmarshal (pre ++ [line]) Relay.init).writes <+:
        (relayLoop unmarshal (pre ++ line :: post) Relay.init).writes := by
  refine ⟨?_, ?_, ?_⟩
  · intro h
    rw [relayLoop_append unmarshal pre [line] Relay.init hpre]
    cases hline : strings.Contains line (str "[DONE]") with
    | true => rw [relayLoop_sentinel _ _ _ _ hline]; rfl
    | false =>
      rcases h with h | h
      · rw [hline] at h; exact Bool.noConfusion h
      · obtain ⟨r, hr⟩ := Option.isSome_iff_exists.mp h
        rw [relayLoop_cons _ _ _ _ hline, lineStep_chunk _ _ _ r hmark hr, relayLoop,
          Relay.count_writes]
        rfl
  · rintro ⟨hline, hparse⟩
    rw [relayLoop_append unmarshal pre [line] Relay.init hpre, relayLoop_cons _ _ _ _ hline,
      lineStep_malformed _ _ _ hmark hparse, relayLoop]
  · have h := relayLoop_writes_prefix unmarshal (pre ++ [line]) post Relay.init
    rw [List.append_assoc] at h
    exact h

/-- C4 at a concrete stream: the chunk `Hi` after a comment line is forwarded. -/
theorem data_line_forwarded_iff_parsed_witness :
    strings.HasPrefix Scenario.chunkHi (str "data: ") = true ∧
      (relayLoop json.Unmarshal ([str ": ping"] ++ [Scenario.chunkHi]) Relay.init).writes =
        (relayLoop json.Unmarshal [str ": ping"] Relay.init).writes
          ++ [Scenario.chunkHi ++ [10]] :=
  ⟨by decide,
    (data_line_forwarded_iff_parsed json.Unmarshal [str ": ping"] Scenario.chunkHi
      [Scenario.done] (by decide) (by decide)).1 (Or.inr (by decide))⟩

/-- C4 as stated fails: the lines `data: {oops}` (not JSON) and `data: {"choices":1}`
(JSON that is not a chunk) have the form `data: {...}`, the loop reads them, and nothing
is forwarded for them. -/
theorem data_line_not_forwarded_when_unparsed :
    strings.HasPrefix Scenario.chunkMalformed (str "data: \x7b") = true ∧
      Scenario.chunkMalformed.getLast? = some 125 ∧
      strings.HasPrefix Scenario.chunkMistyped (str "data: \x7b") = true ∧
      Scenario.chunkMistyped.getLast? = some 125 ∧
      (relayLoop json.Unmarshal [Scenario.chunkMalformed, Scenario.chunkMistyped]
        Relay.init).scans = 2 ∧
      (relayLoop json.Unmarshal [Scenario.chunkMalformed, Scenario.chunkMistyped]
        Relay.init).writes = [] := by
  decide

/-! ## Token count -/

theorem isContentWrite_sentinel (unmarshal : GoString → Option StreamResponse) (d : GoString)
    (hd : strings.Contains d (str "[DONE]") = true) :
    isContentWrite unmarshal (d ++ [10]) = false := by
  simp [isContentWrite, sentinel, hd]

theorem isContentWrite_chunk (unmarshal : GoString → Option StreamResponse) (line : GoString)
    (r : StreamResponse) (hmark : strings.HasPrefix line (str "data: ") = true)
    (hline : strings.Contains line (str "[DONE]") = false)
    (hparse : unmarshal (line.drop 6) = some r) :
    isContentWrite unmarshal (line ++ [10]) = hasContent r := by
  simp [isContentWrite, parsesWithContent, sentinel, dataMarker, hline, hmark, hparse]

theorem isContentWrite_other (unmarshal : GoString → Option StreamResponse) (line : GoString)
    (hmark : strings.HasPrefix line (str "data: ") = false) :
    isContentWrite unmarshal (line ++ [10]) = false := by
  simp [isContentWrite, parsesWithContent, dataMarker, hmark]

theorem Relay.count_tokenCount (st : Relay) (r : StreamResponse) :
    (st.count r).tokenCount = st.tokenCount + (if hasContent r then 1 else 0) := by
  unfold Relay.count hasContent
  cases r.Choices with
  | nil => simp
  | cons c cs => by_cases h : c.Delta.Content = [] <;> simp [h]

/-- One pass of the loop body keeps the token count equal to the number of forwarded
chunks with content. -/
theorem lineStep_count (unmarshal : GoString → Option StreamResponse) (line : GoString)
    (st : Relay) (hline : strings.Contains line (str "[DONE]") = false)
    (hst : st.tokenCount = (st.writes.filter (isContentWrite unmarshal)).length) :
    (lineStep unmarshal line st).tokenCount =
      ((lineStep unmarshal line st).writes.filter (isContentWrite unmarshal)).length := by
  by_cases hne : line = []
  · simp [lineStep, hne, hst]
  · cases hmark : strings.HasPrefix line (str "data: ") with
    | false =>
      simp [lineStep, hne, hmark, Relay.forward, List.filter_append, hst,
        isContentWrite_other unmarshal line hmark]
    | true =>
      cases hparse : unmarshal (line.drop 6) with
      | none => rw [lineStep_malformed _ _ _ hmark hparse]; exact hst
      | some r =>
        rw [lineStep_chunk _ _ _ r hmark hparse, Relay.count_tokenCount, Relay.count_writes]
        simp only [Relay.forward, List.filter_append, List.length_append, hst]
        rw [List.filter_cons, isContentWrite_chunk unmarshal line r hmark hline hparse]
        cases hasContent r <;> simp

/-- The loop keeps the token count equal to the number of forwarded chunks with content. -/
theorem relayLoop_count (unmarshal : GoString → Option StreamResponse)
    (lines : List GoString) (st : Relay)
    (hst : st.tokenCount = (st.writes.filter (isContentWrite unmarshal)).length) :
    (relayLoop unmarshal lines st).tokenCount =
      ((relayLoop unmarshal lines st).writes.filter (isContentWrite unmarshal)).length := by
  induction lines generalizing st with
  | nil => simpa [relayLoop] using hst
  | cons line rest ih =>
    cases hline : strings.Contains line (str "[DONE]") with
    | true =>
      rw [relayLoop_sentinel _ _ _ _ hline]
      simp [Relay.forward, List.filter_append, hst, isContentWrite_sentinel unmarshal line hline]
    | false =>
      rw [relayLoop_cons _ _ _ _ hline]
      exact ih _ (lineStep_count unmarshal line st hline hst)

/-- One pass of the loop body at a line without the sentinel writes nothing or the line. -/
theorem lineStep_writes (unmarshal : GoString → Option StreamResponse) (line : GoString)
    (st : Relay) :
    (lineStep unmarshal line st).writes = st.writes ∨
      (lineStep unmarshal line st).writes = st.writes ++ [line ++ [10]] := by
  unfold lineStep
  simp only []
  split
  · exact Or.inl rfl
  · split
    · split
      · exact Or.inl rfl
      · rw [Relay.count_writes]; exact Or.inr rfl
    · exact Or.inr rfl

/-- The writes of the loop are writes without the sentinel, followed by at most one more
write, and by none when the loop is not left through `break`. -/
theorem relayLoop_writes_clean (unmarshal : GoString → Option StreamResponse)
    (lines : List GoString) (st : Relay) (hbroke : st.broke = false)
    (hst : ∀ w ∈ st.writes, strings.Contains w.dropLast (str "[DONE]") = false) :
    ∃ ws tail, (relayLoop unmarshal lines st).writes = ws ++ tail ∧
      (∀ w ∈ ws, strings.Contains w.dropLast (str "[DONE]") = false) ∧ tail.length ≤ 1 ∧
      ((relayLoop unmarshal lines st).broke = false → tail = []) := by
  induction lines generalizing st with
  | nil => exact ⟨st.writes, [], by simp [relayLoop], hst, by simp, fun _ => rfl⟩
  | cons line rest ih =>
    cases hline : strings.Contains line (str "[DONE]") with
    | true =>
      rw [relayLoop_sentinel _ _ _ _ hline]
      refine ⟨st.writes, [line ++ [10]], rfl, hst, by simp, ?_⟩
      intro h
      exact absurd h (by simp)
    | false =>
      rw [relayLoop_cons _ _ _ _ hline]
      refine ih _ (by rw [lineStep_broke]; exact hbroke) ?_
      intro w hw
      rcases lineStep_writes unmarshal line st with h | h
      · rw [h] at hw; exact hst w hw
      · rw [h, List.mem_append, List.mem_singleton] at hw
        rcases hw with hw | hw
        · exact hst w hw
        · rw [hw, List.dropLast_concat]; exact hline

/-- A stronger test passes no more elements. -/
theorem filter_isContentWrite_le (unmarshal : GoString → Option StreamResponse)
    (l : List GoString) :
    (l.filter (isContentWrite unmarshal)).length ≤
      (l.filter (parsesWithContent unmarshal)).length := by
  induction l with
  | nil => simp
  | cons w l ih =>
    rw [List.filter_cons, List.filter_cons]
    cases hp : parsesWithContent unmarshal w with
    | false =>
      have hc : isContentWrite unmarshal w = false := by simp [isContentWrite, hp]
      simp only [hc, Bool.false_eq_true, if_false]
      exact ih
    | true =>
      cases hc : isContentWrite unmarshal w with
      | true =>
        simp only [if_true, List.length_cons]
        omega
      | false =>
        simp only [Bool.false_eq_true, if_false, if_true, List.length_cons]
        omega

/-- Of the forwarded chunks with content, the token count misses at most one: a chunk
that contains the sentinel, at which the loop is left. -/
theorem relayLoop_count_bounds (unmarshal : GoString → Option StreamResponse)
    (lines : List GoString) :
    (relayLoop unmarshal lines Relay.init).tokenCount ≤
        ((relayLoop unmarshal lines Relay.init).writes.filter
          (parsesWithContent unmarshal)).length ∧
      ((relayLoop unmarshal lines Relay.init).writes.filter
          (parsesWithContent unmarshal)).length ≤
        (relayLoop unmarshal lines Relay.init).tokenCount + 1 ∧
      ((relayLoop unmarshal lines Relay.init).broke = false →
        ((relayLoop unmarshal lines Relay.init).writes.filter
          (parsesWithContent unmarshal)).length =
            (relayLoop unmarshal lines Relay.init).tokenCount) := by
  have hcount := relayLoop_count unmarshal lines Relay.init rfl
  obtain ⟨ws, tail, hw, hclean, htail, hnone⟩ :=
    relayLoop_writes_clean unmarshal lines Relay.init rfl
      (by intro w hw; exact absurd hw (List.not_mem_nil w))
  have hsame : ws.filter (isContentWrite unmarshal) = ws.filter (parsesWithContent unmarshal) := by
    apply List.filter_congr
    intro w hmem
    have := hclean w hmem
    simp only [isContentWrite, sentinel, this, Bool.not_false, Bool.true_and]
  have hle := filter_isContentWrite_le unmarshal (relayLoop unmarshal lines Relay.init).writes
  have htl : (tail.filter (parsesWithContent unmarshal)).length ≤ 1 :=
    Nat.le_trans (List.length_filter_le _ _) htail
  rw [hcount]
  refine ⟨hle, ?_, ?_⟩
  · rw [hw, List.filter_append, List.filter_append, List.length_append, List.length_append,
      hsame]
    omega
  · intro hb
    rw [hw, hnone hb, List.append_nil, hsame]

/-- C6, as the code has it: the token count that `streamChatToHTTP` logs at stream end
is the number of forwarded chunks whose parsed `delta.content` (that of the first
choice) is not empty, not counting a chunk that contains the sentinel `[DONE]`: that
line is forwarded without being parsed, and the loop is left at it. So the count is the
number of forwarded chunks with content or one less, and it is that number when the
loop is not left at a sentinel. Only a line whose JSON parsed counts, so a chunk that
fails to parse never contributes. Either nothing is logged (the call failed before the
stream started), or the log is the start line and the completion line with that count.
For the stream of the chunk `Hi`, the chunk with empty content and `[DONE]`, the client
receives the three lines verbatim in order, the count is 1 and no error is returned, in
the loop and in a whole run of `chatHandler` against an upstream that sends this stream. -/
theorem token_count_is_content_chunks (env : Env) (messages : List ChatMessage)
    (modelEndpoint : GoString) (maxTokens : Int) (modelType : GoString) :
    ((streamChatToHTTP env messages modelEndpoint maxTokens modelType).log = [] ∨
      (streamChatToHTTP env messages modelEndpoint maxTokens modelType).log =
        [.started modelType, .completed modelType
          (((streamChatToHTTP env messages modelEndpoint maxTokens modelType).relay.writes.filter
            (isContentWrite env.unmarshal)).length)]) ∧
      (∀ lines : List GoString,
        (relayLoop env.unmarshal lines Relay.init).tokenCount =
          ((relayLoop env.unmarshal lines Relay.init).writes.filter
            (isContentWrite env.unmarshal)).length) ∧
      (∀ lines : List GoString,
        (relayLoop env.unmarshal lines Relay.init).tokenCount ≤
            ((relayLoop env.unmarshal lines Relay.init).writes.filter
              (parsesWithContent env.unmarshal)).length ∧
          ((relayLoop env.unmarshal lines Relay.init).writes.filter
              (parsesWithContent env.unmarshal)).length ≤
            (relayLoop env.unmarshal lines Relay.init).tokenCount + 1 ∧
          ((relayLoop env.unmarshal lines Relay.init).broke = false →
            ((relayLoop env.unmarshal lines Relay.init).writes.filter
              (parsesWithContent env.unmarshal)).length =
                (relayLoop env.unmarshal lines Relay.init).tokenCount)) ∧
      (∀ eofWithData : Bool,
        relay json.Unmarshal (bufio.Scanner.run
            ⟨bodyOf [Scenario.chunkHi, Scenario.chunkEmpty, Scenario.done], eofWithData⟩) =
          (⟨[Scenario.chunkHi ++ [10], Scenario.chunkEmpty ++ [10], Scenario.done ++ [10]],
            3, 1, 3, true⟩, none)) ∧
      (chatHandler
          (Scenario.env (bodyOf [Scenario.chunkHi, Scenario.chunkEmpty, Scenario.done]))
          Scenario.hi).body = bodyOf [Scenario.chunkHi, Scenario.chunkEmpty, Scenario.done] ∧
      (chatHandler
          (Scenario.env (bodyOf [Scenario.chunkHi, Scenario.chunkEmpty, Scenario.done]))
          Scenario.hi).log = [.started (str "qwen3"), .completed (str "qwen3") 1] := by
  refine ⟨?_, ?_, ?_, ?_, by decide, by decide⟩
  · unfold streamChatToHTTP
    simp only []
    split
    · exact Or.inl rfl
    · split
      · exact Or.inl rfl
      · split
        · exact Or.inl rfl
        · refine Or.inr ?_
          simp only [relay]
          rw [relayLoop_count env.unmarshal _ Relay.init rfl]
  · intro lines
    exact relayLoop_count env.unmarshal lines Relay.init rfl
  · intro lines
    exact relayLoop_count_bounds env.unmarshal lines
  · intro eofWithData
    cases eofWithData <;> decide

set_option maxRecDepth 4096 in
/-- C6 as stated fails: in the stream of the chunk `Hi`, a chunk whose content is
`say [DONE] now` and the chunk `Hi` again, the first two lines are forwarded and the
loop is left. Both forwarded chunks parse with non-empty `delta.content`, and the token
count that is logged is 1. -/
theorem sentinel_in_content_is_not_counted :
    json.Unmarshal (Scenario.chunkSaysDone.drop 6) =
        some ⟨[⟨⟨str "say [DONE] now", []⟩, 0, []⟩], []⟩ ∧
      (relayLoop json.Unmarshal [Scenario.chunkHi, Scenario.chunkSaysDone, Scenario.chunkHi]
        Relay.init).writes = [Scenario.chunkHi ++ [10], Scenario.chunkSaysDone ++ [10]] ∧
      ((relayLoop json.Unmarshal [Scenario.chunkHi, Scenario.chunkSaysDone, Scenario.chunkHi]
        Relay.init).writes.filter (parsesWithContent json.Unmarshal)).length = 2 ∧
      (relayLoop json.Unmarshal [Scenario.chunkHi, Scenario.chunkSaysDone, Scenario.chunkHi]
        Relay.init).tokenCount = 1 ∧
      (chatHandler
          (Scenario.env (bodyOf [Scenario.chunkHi, Scenario.chunkSaysDone, Scenario.chunkHi]))
          Scenario.hi).log = [.started (str "qwen3"), .completed (str "qwen3") 1] := by
  refine ⟨by decide, by decide, by decide, by decide, by decide⟩

/-! ## Other lines -/

/-- One pass of the loop body at a line that is neither event data nor empty. -/
theorem lineStep_plain (unmarshal : GoString → Option StreamResponse) (line : GoString)
    (st : Relay) (hmark : strings.HasPrefix line (str "data: ") = false) :
    (lineStep unmarshal line st).writes =
      st.writes ++ (if line = [] then [] else [line ++ [10]]) := by
  by_cases hne : line = []
  · simp [lineStep, hne]
  · simp [lineStep, hne, hmark, Relay.forward]

theorem relayLoop_plain (unmarshal : GoString → Option StreamResponse)
    (lines : List GoString) (st : Relay)
    (hlines : ∀ l ∈ lines, strings.Contains l (str "[DONE]") = false ∧
      strings.HasPrefix l (str "data: ") = false) :
    (relayLoop unmarshal lines st).writes =
      st.writes ++ (lines.filter fun l => decide (l ≠ [])).map fun l => l ++ [10] := by
  induction lines generalizing st with
  | nil => simp [relayLoop]
  | cons line rest ih =>
    have hline := hlines line (List.mem_cons_self _ _)
    have hrest : ∀ l ∈ rest, strings.Contains l (str "[DONE]") = false ∧
        strings.HasPrefix l (str "data: ") = false :=
      fun l hl => hlines l (List.mem_cons_of_mem _ hl)
    rw [relayLoop_cons _ _ _ _ hline.1, ih _ hrest, lineStep_plain _ _ _ hline.2]
    by_cases hne : line = []
    · simp [hne]
    · simp [hne, List.filter_cons]

/-- C7: when no line contains the sentinel and none starts with `data: `, the bytes the
loop writes to the client are exactly the non-empty lines, in their order, each unchanged
and followed by one newline; there is one write per non-empty line and empty lines
produce none. -/
theorem plain_lines_forwarded_verbatim (unmarshal : GoString → Option StreamResponse)
    (lines : List GoString)
    (hlines : ∀ l ∈ lines, strings.Contains l (str "[DONE]") = false ∧
      strings.HasPrefix l (str "data: ") = false) :
    (relayLoop unmarshal lines Relay.init).writes =
        (lines.filter fun l => decide (l ≠ [])).map (fun l => l ++ [10]) ∧
      (relayLoop unmarshal lines Relay.init).writes.flatten =
        bodyOf (lines.filter fun l => decide (l ≠ [])) := by
  have h : (relayLoop unmarshal lines Relay.init).writes =
      (lines.filter fun l => decide (l ≠ [])).map (fun l => l ++ [10]) := by
    rw [relayLoop_plain unmarshal lines Relay.init hlines]
    rfl
  exact ⟨h, by rw [h]; rfl⟩

/-- C7 at a concrete stream: a comment line, an empty line and an event line. -/
theorem plain_lines_forwarded_verbatim_witness :
    (∀ l ∈ [str ": keep-alive", [], str "event: message"],
        strings.Contains l (str "[DONE]") = false ∧
          strings.HasPrefix l (str "data: ") = false) ∧
      (relayLoop json.Unmarshal [str ": keep-alive", [], str "event: message"]
        Relay.init).writes.flatten = str ": keep-alive\nevent: message\n" :=
  ⟨by decide,
    ((plain_lines_forwarded_verbatim json.Unmarshal
      [str ": keep-alive", [], str "event: message"] (by decide)).2).trans (by decide)⟩

/-! ## The line scanner -/

namespace bufio

/-- The split function at a buffer that holds a whole line and its newline. -/
theorem ScanLines_line (line rest : GoString) (atEOF : Bool) (hline : 10 ∉ line) :
    ScanLines (line ++ 10 :: rest) atEOF = (line.length + 1, some (dropCR line)) := by
  have hidx : List.indexOf 10 (line ++ 10 :: rest) = line.length := by
    rw [List.indexOf_append_of_not_mem hline, List.indexOf_cons_self, Nat.add_zero]
  have hlen : line.length < (line ++ 10 :: rest).length := by
    simp only [List.length_append, List.length_cons]; omega
  have hempty : (line ++ 10 :: rest).isEmpty = false := by
    cases line <;> rfl
  unfold ScanLines
  simp only [hempty, Bool.and_false, Bool.false_eq_true, if_false, hidx, hlen, if_true,
    List.take_left]

/-- The split function at a buffer without a newline, before the end of the input. -/
theorem ScanLines_more (data : GoString) (hdata : 10 ∉ data) :
    ScanLines data false = (0, none) := by
  have hidx : ¬ List.indexOf 10 data < data.length := by
    rw [List.indexOf_lt_length]; exact hdata
  unfold ScanLines
  simp [hidx]

/-- The split function at the end of the input, with a last line that has no newline. -/
theorem ScanLines_final (data : GoString) (hdata : 10 ∉ data) (hne : data ≠ []) :
    ScanLines data true = (data.length, some (dropCR data)) := by
  have hidx : ¬ List.indexOf 10 data < data.length := by
    rw [List.indexOf_lt_length]; exact hdata
  have hempty : data.isEmpty = false := by
    cases data with
    | nil => exact absurd rfl hne
    | cons _ _ => rfl
  unfold ScanLines
  simp [hidx, hempty]

/-- A line shorter than the largest token is returned whole, less its carriage return,
and the scanner moves past its newline. -/
theorem Scanner.Scan_line (line rest : GoString) (eof : Bool) (hline : 10 ∉ line)
    (hlen : line.length < MaxScanTokenSize) :
    Scanner.Scan ⟨line ++ 10 :: rest, eof⟩ = .token (dropCR line) ⟨rest, eof⟩ := by
  have hwin : (line ++ 10 :: rest).take MaxScanTokenSize =
      line ++ 10 :: rest.take (MaxScanTokenSize - line.length - 1) := by
    rw [List.take_append_eq_append_take, List.take_of_length_le (Nat.le_of_lt hlen)]
    obtain ⟨k, hk⟩ : ∃ k, MaxScanTokenSize - line.length = k + 1 := ⟨_, (Nat.succ_pred_eq_of_pos (by omega)).symm⟩
    rw [hk, List.take_succ_cons]
    simp
  unfold Scanner.Scan
  simp only [hwin, ScanLines_line _ _ _ hline]
  congr 2
  rw [List.drop_append_eq_append_drop]
  simp

/-- A line of `MaxScanTokenSize` bytes or more before its newline stops the scanner. -/
theorem Scanner.Scan_tooLong (line rest : GoString) (eof : Bool) (hline : 10 ∉ line)
    (hlen : MaxScanTokenSize ≤ line.length) :
    Scanner.Scan ⟨line ++ 10 :: rest, eof⟩ = .stop (some .ErrTooLong) := by
  have hwin : (line ++ 10 :: rest).take MaxScanTokenSize = line.take MaxScanTokenSize :=
    List.take_append_of_le_length hlen
  have hmem : 10 ∉ line.take MaxScanTokenSize := fun h => hline (List.mem_of_mem_take h)
  have h1 : ¬ (line ++ 10 :: rest).length < MaxScanTokenSize := by
    simp only [List.length_append, List.length_cons]; omega
  have h2 : ¬ (line ++ 10 :: rest).length = MaxScanTokenSize := by
    simp only [List.length_append, List.length_cons]; omega
  unfold Scanner.Scan
  simp only [hwin, h1, h2, decide_False, Bool.and_false, Bool.or_false,
    ScanLines_more _ hmem]
  rfl

/-- At the end of the input the scanner stops without an error. -/
theorem Scanner.Scan_end (eof : Bool) : Scanner.Scan ⟨[], eof⟩ = .stop none := by
  cases eof <;> rfl

/-- A token consumes input. -/
theorem Scanner.Scan_token_lt (s next : Scanner) (text : GoString)
    (h : s.Scan = .token text next) : next.pending.length < s.pending.length := by
  unfold Scanner.Scan at h
  simp only [] at h
  split at h
  · rename_i advance token hsplit
    injection h with _ hnext
    subst hnext
    simp only [List.length_drop]
    unfold ScanLines at hsplit
    split at hsplit
    · exact absurd hsplit (by simp)
    · rename_i hnot
      simp only [] at hsplit
      split at hsplit
      · rename_i hidx
        injection hsplit with hadv _
        have : (List.take MaxScanTokenSize s.pending).length ≤ s.pending.length :=
          List.length_take_le' _ _
        omega
      · split at hsplit
        · rename_i hat
          injection hsplit with hadv _
          have hne : (List.take MaxScanTokenSize s.pending).length ≠ 0 := by
            intro h0
            apply hnot
            simp [hat, List.length_eq_zero.mp h0]
          have : (List.take MaxScanTokenSize s.pending).length ≤ s.pending.length :=
            List.length_take_le' _ _
          omega
        · exact absurd hsplit (by simp)
  · split at h <;> exact ScanResult.noConfusion h

/-- Fuel beyond the number of pending bytes changes nothing: `Scanner.run` has the lines
of the scanner up to the `Scan()` that returns false. -/
theorem Scanner.lines_fuel (fuel : Nat) (s : Scanner) (h : s.pending.length < fuel) :
    Scanner.lines fuel s = s.run := by
  induction fuel using Nat.strong_induction_on generalizing s with
  | _ fuel ih =>
    cases fuel with
    | zero => exact absurd h (Nat.not_lt_zero _)
    | succ fuel =>
      unfold Scanner.run
      rw [Scanner.lines, Scanner.lines]
      cases hscan : s.Scan with
      | stop err => rfl
      | token text next =>
        have hlt := Scanner.Scan_token_lt s next text hscan
        simp only []
        rw [ih fuel (Nat.lt_succ_self _) next (by omega)]
        by_cases hfuel : s.pending.length = fuel
        · rw [hfuel, ih fuel (Nat.lt_succ_self _) next (by omega)]
        · rw [ih s.pending.length (by omega) next hlt]

end bufio

theorem bodyOf_cons (l : GoString) (ls : List GoString) :
    bodyOf (l :: ls) = l ++ 10 :: bodyOf ls := by
  simp [bodyOf]

namespace bufio

/-- The scanner over a body that starts with lines shorter than the largest token:
it yields them, then goes on with what follows them. -/
theorem Scanner.lines_body (ls : List GoString) (rest : GoString) (eof : Bool) (fuel : Nat)
    (hls : ∀ l ∈ ls, 10 ∉ l ∧ l.length < MaxScanTokenSize) :
    Scanner.lines (ls.length + fuel) ⟨bodyOf ls ++ rest, eof⟩ =
      (ls.map dropCR ++ (Scanner.lines fuel ⟨rest, eof⟩).1, (Scanner.lines fuel ⟨rest, eof⟩).2) := by
  induction ls with
  | nil => simp [bodyOf]
  | cons l ls ih =>
    have hl := hls l (List.mem_cons_self _ _)
    have hrest : ∀ x ∈ ls, 10 ∉ x ∧ x.length < MaxScanTokenSize :=
      fun x hx => hls x (List.mem_cons_of_mem _ hx)
    have hfuel : (l :: ls).length + fuel = (ls.length + fuel) + 1 := by
      simp only [List.length_cons]; omega
    rw [hfuel, Scanner.lines, bodyOf_cons, List.append_assoc, List.cons_append,
      Scanner.Scan_line l (bodyOf ls ++ rest) eof hl.1 hl.2]
    simp only [ih hrest, List.map_cons, List.cons_append]

/-- The scanner over a body of lines shorter than the largest token yields every line,
less its trailing carriage return, and ends without an error. -/
theorem Scanner.run_body (ls : List GoString) (eof : Bool)
    (hls : ∀ l ∈ ls, 10 ∉ l ∧ l.length < MaxScanTokenSize) :
    Scanner.run ⟨bodyOf ls, eof⟩ = (ls.map dropCR, none) := by
  have h := Scanner.lines_body ls [] eof ((bodyOf ls).length + 1) hls
  rw [List.append_nil] at h
  rw [← Scanner.lines_fuel (ls.length + ((bodyOf ls).length + 1)) ⟨bodyOf ls, eof⟩
    (by simp only []; omega), h, Scanner.lines, Scanner.Scan_end]
  simp

/-- The scanner over a body in which a line of `MaxScanTokenSize` bytes or more follows
shorter lines yields the shorter lines and stops with `ErrTooLong`. -/
theorem Scanner.run_tooLong (ls : List GoString) (long rest : GoString) (eof : Bool)
    (hls : ∀ l ∈ ls, 10 ∉ l ∧ l.length < MaxScanTokenSize)
    (hlong : 10 ∉ long) (hlen : MaxScanTokenSize ≤ long.length) :
    Scanner.run ⟨bodyOf ls ++ (long ++ 10 :: rest), eof⟩ =
      (ls.map dropCR, some .ErrTooLong) := by
  have h := Scanner.lines_body ls (long ++ 10 :: rest) eof
    ((bodyOf ls ++ (long ++ 10 :: rest)).length + 1) hls
  rw [← Scanner.lines_fuel (ls.length + ((bodyOf ls ++ (long ++ 10 :: rest)).length + 1))
    ⟨bodyOf ls ++ (long ++ 10 :: rest), eof⟩ (by simp only []; omega), h, Scanner.lines,
    Scanner.Scan_tooLong long rest eof hlong hlen]
  simp

/-- A last line without a newline, shorter than the largest token, is returned at the
end of the input. -/
theorem Scanner.Scan_final (last : GoString) (eof : Bool) (hlast : 10 ∉ last)
    (hne : last ≠ []) (hlen : last.length < MaxScanTokenSize) :
    Scanner.Scan ⟨last, eof⟩ = .token (dropCR last) ⟨[], eof⟩ := by
  unfold Scanner.Scan
  simp only [List.take_of_length_le (Nat.le_of_lt hlen), hlen, decide_True, Bool.true_or,
    ScanLines_final last hlast hne, List.drop_length]

/-- The scanner over a body that ends in a line without a newline. -/
theorem Scanner.run_body_final (ls : List GoString) (last : GoString) (eof : Bool)
    (hls : ∀ l ∈ ls, 10 ∉ l ∧ l.length < MaxScanTokenSize)
    (hlast : 10 ∉ last) (hne : last ≠ []) (hlen : last.length < MaxScanTokenSize) :
    Scanner.run ⟨bodyOf ls ++ last, eof⟩ = (ls.map dropCR ++ [dropCR last], none) := by
  have h := Scanner.lines_body ls last eof ((bodyOf ls ++ last).length + 2) hls
  rw [← Scanner.lines_fuel (ls.length + ((bodyOf ls ++ last).length + 2))
    ⟨bodyOf ls ++ last, eof⟩ (by simp only []; omega), h, Scanner.lines,
    Scanner.Scan_final last eof hlast hne hlen]
  simp only []
  rw [Scanner.lines, Scanner.Scan_end]

/-- A last line without a newline that fills the buffer exactly is returned when the
reader reports the end of the input along with the data, and stops the scanner when it
reports it in a later `Read`. -/
theorem Scanner.Scan_final_full (last : GoString) (eof : Bool) (hlast : 10 ∉ last)
    (hlen : last.length = MaxScanTokenSize) :
    Scanner.Scan ⟨last, eof⟩ =
      if eof then .token (dropCR last) ⟨[], eof⟩ else .stop (some .ErrTooLong) := by
  have hne : last ≠ [] := by
    intro h
    rw [h] at hlen
    exact absurd hlen (by decide)
  have hwin : last.take MaxScanTokenSize = last := List.take_of_length_le (Nat.le_of_eq hlen)
  cases eof with
  | true =>
    have hat : (decide (last.length < MaxScanTokenSize) ||
        (true && decide (last.length = MaxScanTokenSize))) = true := by
      rw [hlen]; decide
    unfold Scanner.Scan
    simp only [hwin, hat, ScanLines_final last hlast hne, List.drop_length, if_true]
  | false =>
    have hat : (decide (last.length < MaxScanTokenSize) ||
        (false && decide (last.length = MaxScanTokenSize))) = false := by
      rw [hlen]; decide
    unfold Scanner.Scan
    simp only [hwin, hat, ScanLines_more last hlast]
    rfl

/-- The scanner at a scan that returns false. -/
theorem Scanner.run_stop (s : Scanner) (err : Option ScanError) (h : s.Scan = .stop err) :
    s.run = ([], err) := by
  unfold Scanner.run
  rw [Scanner.lines, h]

/-- The scanner over a body that starts with lines shorter than the largest token:
it yields them, then what it yields over the rest of the body. -/
theorem Scanner.run_after (ls : List GoString) (rest : GoString) (eof : Bool)
    (hls : ∀ l ∈ ls, 10 ∉ l ∧ l.length < MaxScanTokenSize) :
    Scanner.run ⟨bodyOf ls ++ rest, eof⟩ =
      (ls.map dropCR ++ (Scanner.run ⟨rest, eof⟩).1, (Scanner.run ⟨rest, eof⟩).2) := by
  have h := Scanner.lines_body ls rest eof ((bodyOf ls ++ rest).length + 1) hls
  have hrest : Scanner.lines ((bodyOf ls ++ rest).length + 1) ⟨rest, eof⟩ =
      Scanner.run ⟨rest, eof⟩ :=
    Scanner.lines_fuel _ ⟨rest, eof⟩ (by simp only [List.length_append]; omega)
  rw [← Scanner.lines_fuel (ls.length + ((bodyOf ls ++ rest).length + 1))
    ⟨bodyOf ls ++ rest, eof⟩ (by simp only []; omega), h, hrest]

/-- A last line without a newline that is longer than the buffer stops the scanner. -/
theorem Scanner.Scan_final_tooLong (last : GoString) (eof : Bool) (hlast : 10 ∉ last)
    (hlen : MaxScanTokenSize < last.length) :
    Scanner.Scan ⟨last, eof⟩ = .stop (some .ErrTooLong) := by
  have hmem : 10 ∉ last.take MaxScanTokenSize := fun h => hlast (List.mem_of_mem_take h)
  have h1 : ¬ last.length < MaxScanTokenSize := by omega
  have h2 : ¬ last.length = MaxScanTokenSize := by omega
  unfold Scanner.Scan
  simp only [h1, h2, decide_False, Bool.and_false, Bool.or_false, ScanLines_more _ hmem]
  rfl

/-- The scanner over a last line without a newline that fills the buffer exactly. -/
theorem Scanner.run_final_full (last : GoString) (eof : Bool) (hlast : 10 ∉ last)
    (hlen : last.length = MaxScanTokenSize) :
    Scanner.run ⟨last, eof⟩ =
      if eof then ([dropCR last], none) else ([], some .ErrTooLong) := by
  have hscan := Scanner.Scan_final_full last eof hlast hlen
  cases eof with
  | false => exact Scanner.run_stop _ _ hscan
  | true =>
    simp only [if_true] at hscan ⊢
    unfold Scanner.run
    rw [Scanner.lines, hscan]
    simp only []
    have hfuel : last.length = (last.length - 1) + 1 := by
      rw [hlen]; decide
    rw [hfuel, Scanner.lines, Scanner.Scan_end]

/-- A body of one line of `MaxScanTokenSize` bytes or more. -/
theorem Scanner.run_long_line (long : GoString) (eof : Bool)
    (hlong : 10 ∉ long) (hlen : MaxScanTokenSize ≤ long.length) :
    Scanner.run ⟨long ++ [10], eof⟩ = ([], some .ErrTooLong) := by
  have h := Scanner.run_tooLong [] long [] eof
    (by intro l hl; exact absurd hl (List.not_mem_nil l)) hlong hlen
  simpa [bodyOf] using h

/-- A body of one line shorter than `MaxScanTokenSize`. -/
theorem Scanner.run_short_line (line : GoString) (eof : Bool)
    (hline : 10 ∉ line) (hlen : line.length < MaxScanTokenSize) :
    Scanner.run ⟨line ++ [10], eof⟩ = ([dropCR line], none) := by
  have h := Scanner.run_body [line] eof (by
    intro l hl
    rw [List.mem_singleton] at hl
    subst hl
    exact ⟨hline, hlen⟩)
  simpa [bodyOf] using h

/-- A line without a carriage return is kept as it is. -/
theorem dropCR_of_not_mem (data : GoString) (h : 13 ∉ data) : dropCR data = data := by
  unfold dropCR
  rw [if_neg]
  intro hlast
  exact h (List.mem_of_getLast?_eq_some hlast)

end bufio

/-- The error of the scanner is returned when the loop has not been left at a sentinel. -/
theorem relay_scan_error (unmarshal : GoString → Option StreamResponse)
    (lines : List GoString) (e : bufio.ScanError)
    (hdone : ∀ l ∈ lines, strings.Contains l (str "[DONE]") = false) :
    (relay unmarshal (lines, some e)).2 = some (.scan e) := by
  have hbroke : (relayLoop unmarshal lines Relay.init).broke = false :=
    relayLoop_broke unmarshal lines Relay.init hdone
  simp [relay, hbroke]

/-- C10, as the code has it: the scanner of `streamChatToHTTP` has the default buffer
bound of `bufio.MaxScanTokenSize` = 65536 bytes. Every line shorter than that is read
whole, whatever its length below the bound, and handed to the per-line rules (less a
trailing carriage return, which the split function drops), also when it is the last
line and has no newline, and the scanner ends without an error. A line of 65536 bytes
or more that is followed by a newline, and a last line without a newline of more than
65536 bytes, stop the scanner with `ErrTooLong`: the lines before it are handled, the
rest of the body is not read, and unless the loop had already left at a sentinel,
`streamChatToHTTP` returns that error. A last line without a newline of exactly 65536
bytes is read whole when the body reader reports the end of the input together with its
last bytes, and stops the scanner with `ErrTooLong` when it reports it afterwards. -/
theorem scanner_reads_lines_below_limit (unmarshal : GoString → Option StreamResponse)
    (ls : List GoString) (eofWithData : Bool)
    (hls : ∀ l ∈ ls, 10 ∉ l ∧ l.length < 65536) :
    bufio.Scanner.run ⟨bodyOf ls, eofWithData⟩ = (ls.map bufio.dropCR, none) ∧
      (relay unmarshal (bufio.Scanner.run ⟨bodyOf ls, eofWithData⟩)).2 = none ∧
      (∀ last : GoString, 10 ∉ last → last ≠ [] → last.length < 65536 →
        bufio.Scanner.run ⟨bodyOf ls ++ last, eofWithData⟩ =
          (ls.map bufio.dropCR ++ [bufio.dropCR last], none)) ∧
      (∀ long rest : GoString, 10 ∉ long → 65536 ≤ long.length →
        bufio.Scanner.run ⟨bodyOf ls ++ (long ++ 10 :: rest), eofWithData⟩ =
            (ls.map bufio.dropCR, some .ErrTooLong) ∧
          ((∀ l ∈ ls, strings.Contains (bufio.dropCR l) (str "[DONE]") = false) →
            (relay unmarshal
              (bufio.Scanner.run ⟨bodyOf ls ++ (long ++ 10 :: rest), eofWithData⟩)).2 =
                some (.scan .ErrTooLong))) ∧
      (∀ last : GoString, 10 ∉ last → 65536 < last.length →
        bufio.Scanner.run ⟨bodyOf ls ++ last, eofWithData⟩ =
            (ls.map bufio.dropCR, some .ErrTooLong) ∧
          ((∀ l ∈ ls, strings.Contains (bufio.dropCR l) (str "[DONE]") = false) →
            (relay unmarshal (bufio.Scanner.run ⟨bodyOf ls ++ last, eofWithData⟩)).2 =
              some (.scan .ErrTooLong))) ∧
      (∀ last : GoString, 10 ∉ last → last.length = 65536 →
        bufio.Scanner.run ⟨bodyOf ls ++ last, eofWithData⟩ =
            (if eofWithData then (ls.map bufio.dropCR ++ [bufio.dropCR last], none)
              else (ls.map bufio.dropCR, some .ErrTooLong)) ∧
          (eofWithData = false →
            (∀ l ∈ ls, strings.Contains (bufio.dropCR l) (str "[DONE]") = false) →
            (relay unmarshal (bufio.Scanner.run ⟨bodyOf ls ++ last, eofWithData⟩)).2 =
              some (.scan .ErrTooLong))) := by
  have hls' : ∀ l ∈ ls, 10 ∉ l ∧ l.length < bufio.MaxScanTokenSize := hls
  have hclean : (∀ l ∈ ls, strings.Contains (bufio.dropCR l) (str "[DONE]") = false) →
      ∀ l ∈ ls.map bufio.dropCR, strings.Contains l (str "[DONE]") = false := by
    intro hdone l hl
    obtain ⟨x, hx, rfl⟩ := List.mem_map.mp hl
    exact hdone x hx
  refine ⟨bufio.Scanner.run_body ls eofWithData hls', ?_, ?_, ?_, ?_, ?_⟩
  · rw [bufio.Scanner.run_body ls eofWithData hls']
    simp [relay]
  · intro last hlast hne hlen
    exact bufio.Scanner.run_body_final ls last eofWithData hls' hlast hne hlen
  · intro long rest hlong hlen
    have hrun := bufio.Scanner.run_tooLong ls long rest eofWithData hls' hlong hlen
    refine ⟨hrun, ?_⟩
    intro hdone
    rw [hrun]
    exact relay_scan_error unmarshal _ _ (hclean hdone)
  · intro last hlast hlen
    have hrun : bufio.Scanner.run ⟨bodyOf ls ++ last, eofWithData⟩ =
        (ls.map bufio.dropCR, some .ErrTooLong) := by
      rw [bufio.Scanner.run_after ls last eofWithData hls',
        bufio.Scanner.run_stop _ _ (bufio.Scanner.Scan_final_tooLong last eofWithData hlast hlen)]
      simp
    refine ⟨hrun, ?_⟩
    intro hdone
    rw [hrun]
    exact relay_scan_error unmarshal _ _ (hclean hdone)
  · intro last hlast hlen
    have hrun : bufio.Scanner.run ⟨bodyOf ls ++ last, eofWithData⟩ =
        (if eofWithData then (ls.map bufio.dropCR ++ [bufio.dropCR last], none)
          else (ls.map bufio.dropCR, some .ErrTooLong)) := by
      rw [bufio.Scanner.run_after ls last eofWithData hls',
        bufio.Scanner.run_final_full last eofWithData hlast hlen]
      cases eofWithData <;> simp
    refine ⟨hrun, ?_⟩
    intro heof hdone
    rw [hrun, heof]
    simp only [Bool.false_eq_true, if_false]
    exact relay_scan_error unmarshal _ _ (hclean hdone)

/-- C10 at a concrete body: a chunk and the sentinel line, both short. -/
theorem scanner_reads_lines_below_limit_witness :
    (∀ l ∈ [Scenario.chunkHi, Scenario.done], 10 ∉ l ∧ l.length < 65536) ∧
      bufio.Scanner.run ⟨bodyOf [Scenario.chunkHi, Scenario.done], false⟩ =
        ([Scenario.chunkHi, Scenario.done].map bufio.dropCR, none) :=
  ⟨by decide,
    (scanner_reads_lines_below_limit json.Unmarshal [Scenario.chunkHi, Scenario.done] false
      (by decide)).1⟩

/-- C10 as stated fails: a line of 65536 bytes is not read. The scanner stops at it with
`ErrTooLong` without yielding it, nothing is forwarded, and `streamChatToHTTP` returns
the error, for the sole reason of the length of the line. -/
theorem line_of_65536_bytes_stops_scanner :
    (List.replicate 65536 97).length = 65536 ∧
      bufio.Scanner.run ⟨List.replicate 65536 97 ++ [10], false⟩ = ([], some .ErrTooLong) ∧
      relay json.Unmarshal (bufio.Scanner.run ⟨List.replicate 65536 97 ++ [10], false⟩) =
        (Relay.init, some (.scan .ErrTooLong)) ∧
      bufio.Scanner.run ⟨List.replicate 65535 97 ++ [10], false⟩ =
        ([List.replicate 65535 97], none) := by
  have hmem : ∀ n : Nat, (10 : Byte) ∉ List.replicate n 97 := by
    intro n h
    exact absurd (List.eq_of_mem_replicate h) (by decide)
  have hcr : ∀ n : Nat, (13 : Byte) ∉ List.replicate n 97 := by
    intro n h
    exact absurd (List.eq_of_mem_replicate h) (by decide)
  have hrun := bufio.Scanner.run_long_line (List.replicate 65536 97) false (hmem _)
    (by rw [List.length_replicate]; decide)
  have hshort := bufio.Scanner.run_short_line (List.replicate 65535 97) false (hmem _)
    (by rw [List.length_replicate]; decide)
  rw [bufio.dropCR_of_not_mem _ (hcr _)] at hshort
  refine ⟨List.length_replicate _ _, hrun, ?_, hshort⟩
  rw [hrun]
  rfl

/-! ## The chat handler -/

/-- An identifier has an entry in a table exactly when it is one of its keys. -/
theorem lookup_isSome_iff_key {β : Type} (table : List (GoString × β)) (id : GoString) :
    (table.lookup id).isSome = true ↔ id ∈ table.map Prod.fst := by
  rw [List.lookup_isSome_iff, List.mem_map]
  constructor
  · rintro ⟨p, hp, heq⟩
    exact ⟨p, hp, (beq_iff_eq.mp heq).symm⟩
  · rintro ⟨p, hp, heq⟩
    exact ⟨p, hp, beq_iff_eq.mpr heq.symm⟩

/-- A model that is not a key of the table is not found. -/
theorem lookup_models_none (id : GoString) (h : id ∉ models.map Prod.fst) :
    models.lookup id = none := by
  cases hlookup : models.lookup id with
  | none => rfl
  | some e =>
    exact absurd ((lookup_isSome_iff_key models id).mp (by rw [hlookup]; rfl)) h

/-- The handler on a POST that decodes and names a model of the table. -/
theorem chatHandler_stream (env : Env) (r : Request) (req : StreamRequest)
    (modelEndpoint : GoString) (hmethod : r.Method = str "POST")
    (hdecode : env.decode r.Body = some req) (hmodel : req.Model ≠ [])
    (hlookup : models.lookup req.Model = some modelEndpoint) :
    (chatHandler env r).stream =
      some ⟨addSystemMessage req.Messages, modelEndpoint, req.MaxTokens, req.Model,
        streamChatToHTTP env (addSystemMessage req.Messages) modelEndpoint req.MaxTokens
          req.Model⟩ := by
  have hopt : ¬ str "POST" = str "OPTIONS" := by decide
  unfold chatHandler
  simp [hmethod, hopt, hdecode, hmodel, hlookup]

/-- The handler calls `streamChatToHTTP` only on a POST that decodes and names a model of
the table, and then with the messages of `addSystemMessage`. -/
theorem chatHandler_stream_inv (env : Env) (r : Request) (call : StreamCall)
    (hcall : (chatHandler env r).stream = some call) :
    r.Method = str "POST" ∧ ∃ req modelEndpoint, env.decode r.Body = some req ∧
      req.Model ≠ [] ∧ models.lookup req.Model = some modelEndpoint ∧
      call = ⟨addSystemMessage req.Messages, modelEndpoint, req.MaxTokens, req.Model,
        streamChatToHTTP env (addSystemMessage req.Messages) modelEndpoint req.MaxTokens
          req.Model⟩ := by
  unfold chatHandler at hcall
  simp only [] at hcall
  split at hcall
  · exact absurd hcall (by simp)
  · split at hcall
    · exact absurd hcall (by simp [httpError])
    · rename_i hpost
      split at hcall
      · exact absurd hcall (by simp [httpError])
      · rename_i req hdecode
        split at hcall
        · exact absurd hcall (by simp [httpError])
        · rename_i hmodel
          split at hcall
          · exact absurd hcall (by simp [httpError])
          · rename_i modelEndpoint hlookup
            simp only [Option.some.injEq] at hcall
            exact ⟨not_not.mp hpost, req, modelEndpoint, hdecode, hmodel, hlookup, hcall.symm⟩

/-- C1, as the code has it: when the message list of the request is empty or its first
message does not have role `system`, the message list that `chatHandler` passes to
`streamChatToHTTP` is the default system message of `createSystemMessage` at position 0
followed by the original messages in their original order, and that list is what the
upstream request is built from. It holds exactly one system message when none of the
original messages has role `system`. -/
theorem system_message_prepended (env : Env) (r : Request) (req : StreamRequest)
    (call : StreamCall) (hdecode : env.decode r.Body = some req)
    (hcall : (chatHandler env r).stream = some call)
    (hfirst : req.Messages = [] ∨
      ∃ m rest, req.Messages = m :: rest ∧ m.Role ≠ str "system") :
    call.messages = createSystemMessage :: req.Messages ∧
      call.messages.head? = some createSystemMessage ∧
      call.messages.tail = req.Messages ∧
      (∀ p, call.outcome.posted = some p →
        env.marshal (upstreamRequest (createSystemMessage :: req.Messages)) = .ok p.body) ∧
      ((∀ m ∈ req.Messages, m.Role ≠ str "system") →
        (call.messages.filter fun m => decide (m.Role = str "system")).length = 1) := by
  obtain ⟨_, req', modelEndpoint, hdecode', _, _, hcall'⟩ :=
    chatHandler_stream_inv env r call hcall
  rw [hdecode] at hdecode'
  injection hdecode' with hreq
  subst hreq
  have hadd : addSystemMessage req.Messages = createSystemMessage :: req.Messages := by
    rcases hfirst with h | ⟨m, rest, h, hm⟩
    · rw [h]; rfl
    · rw [h]; simp [addSystemMessage, hm]
  have hmsgs : call.messages = createSystemMessage :: req.Messages := by
    rw [hcall', hadd]
  refine ⟨hmsgs, by rw [hmsgs]; rfl, by rw [hmsgs]; rfl, ?_, ?_⟩
  · intro p hp
    rw [hcall', hadd] at hp
    simp only [streamChatToHTTP] at hp
    split at hp
    · exact absurd hp (by simp)
    · rename_i jsonData hmarshal
      rw [hmarshal]
      split at hp
      · simp only [Option.some.injEq] at hp
        rw [← hp]
      · split at hp
        · simp only [Option.some.injEq] at hp
          rw [← hp]
        · simp only [Option.some.injEq] at hp
          rw [← hp]
  · intro hnone
    rw [hmsgs, List.filter_cons_of_pos (by decide)]
    have : req.Messages.filter (fun m => decide (m.Role = str "system")) = [] := by
      rw [List.filter_eq_nil_iff]
      intro m hm
      simpa using hnone m hm
    rw [this]
    rfl

/-- C1 at the request of one user message `hi` for the model `qwen3`: the upstream
request has the messages system, user, in that order. -/
theorem system_message_prepended_witness :
    json.Decode Scenario.hi.Body = some ⟨[⟨str "user", str "hi"⟩], 0, ⟨0⟩, false, str "qwen3"⟩ ∧
      ((chatHandler (Scenario.env []) Scenario.hi).stream.map fun c => c.messages) =
        some [createSystemMessage, ⟨str "user", str "hi"⟩] :=
  ⟨by decide, by
    have hcall : (chatHandler (Scenario.env []) Scenario.hi).stream =
        some ((chatHandler (Scenario.env []) Scenario.hi).stream.get (by decide)) := by simp
    have h := system_message_prepended (Scenario.env []) Scenario.hi
      ⟨[⟨str "user", str "hi"⟩], 0, ⟨0⟩, false, str "qwen3"⟩ _ (by decide) hcall
      (Or.inr ⟨_, _, rfl, by decide⟩)
    rw [hcall, Option.map_some', h.1]⟩

/-- C1 as stated fails: for a request whose first message is a user message and whose
second message is a system message, the list passed on has two system messages. -/
theorem second_system_message_is_kept :
    json.Decode Scenario.lateSystem.Body =
        some ⟨[⟨str "user", str "hi"⟩, ⟨str "system", str "be brief"⟩], 0, ⟨0⟩, false,
          str "qwen3"⟩ ∧
      ((chatHandler (Scenario.env []) Scenario.lateSystem).stream.map fun c =>
        c.messages.map fun m => m.Role) = some [str "system", str "user", str "system"] ∧
      ((chatHandler (Scenario.env []) Scenario.lateSystem).stream.map fun c =>
        (c.messages.filter fun m => decide (m.Role = str "system")).length) = some 2 := by
  decide

/-- The handler on a POST that decodes to a request without a model. -/
theorem chatHandler_no_model (env : Env) (r : Request) (req : StreamRequest)
    (hmethod : r.Method = str "POST") (hdecode : env.decode r.Body = some req)
    (hempty : req.Model = []) :
    chatHandler env r = httpError enableCORS (str "No model selected") 400 := by
  have hopt : ¬ str "POST" = str "OPTIONS" := by decide
  unfold chatHandler
  simp [hmethod, hopt, hdecode, hempty]

/-- The handler on a POST that decodes to a request for a model that is not in the table. -/
theorem chatHandler_not_found (env : Env) (r : Request) (req : StreamRequest)
    (hmethod : r.Method = str "POST") (hdecode : env.decode r.Body = some req)
    (hempty : req.Model ≠ []) (hkey : req.Model ∉ models.map Prod.fst) :
    chatHandler env r = httpError enableCORS (str "Model not found") 400 := by
  have hopt : ¬ str "POST" = str "OPTIONS" := by decide
  unfold chatHandler
  simp [hmethod, hopt, hdecode, hempty, lookup_models_none req.Model hkey]

/-- The decoder does not look past the first JSON value: the body `nullx` decodes to the
zero request, and the handler answers that no model is selected. -/
theorem chatHandler_null_then_junk :
    json.Decode Scenario.nullThenJunk.Body = some ⟨[], 0, ⟨0⟩, false, []⟩ ∧
      chatHandler (Scenario.env []) Scenario.nullThenJunk =
        ⟨enableCORS, 400, str "No model selected\n", none, []⟩ := by
  decide

/-- C2: a POST whose body parses and whose model identifier is empty or not a key of
`models` is answered with status 400, and `streamChatToHTTP` is not invoked, so no
upstream call is made. For the body `{"model":"unknown","messages":[]}` the response is
the one of `http.Error(w, "Model not found", 400)`: its body is that message and a
newline. -/
theorem unknown_model_rejected (env : Env) (r : Request) (req : StreamRequest)
    (hmethod : r.Method = str "POST") (hdecode : env.decode r.Body = some req)
    (hmodel : req.Model = [] ∨ req.Model ∉ models.map Prod.fst) :
    (chatHandler env r).status = 400 ∧
      (chatHandler env r).stream = none ∧
      ((chatHandler env r).body = str "No model selected\n" ∨
        (chatHandler env r).body = str "Model not found\n") ∧
      (∀ (marshal : StreamRequest → Except GoString GoString)
          (post : Post → Except GoString Body) (canFlush : Bool),
        chatHandler (Env.go marshal post canFlush) Scenario.unknownModel =
          ⟨enableCORS, 400, str "Model not found\n", none, []⟩) := by
  have hgeneral : (chatHandler env r).status = 400 ∧ (chatHandler env r).stream = none ∧
      ((chatHandler env r).body = str "No model selected\n" ∨
        (chatHandler env r).body = str "Model not found\n") := by
    by_cases hempty : req.Model = []
    · rw [chatHandler_no_model env r req hmethod hdecode hempty]
      exact ⟨rfl, rfl, Or.inl (by decide)⟩
    · have hkey : req.Model ∉ models.map Prod.fst := by
        rcases hmodel with h | h
        · exact absurd h hempty
        · exact h
      rw [chatHandler_not_found env r req hmethod hdecode hempty hkey]
      exact ⟨rfl, rfl, Or.inr (by decide)⟩
  refine ⟨hgeneral.1, hgeneral.2.1, hgeneral.2.2, ?_⟩
  intro marshal post canFlush
  rw [chatHandler_not_found (Env.go marshal post canFlush) Scenario.unknownModel
    ⟨[], 0, ⟨0⟩, false, str "unknown"⟩ (by decide)
    (show json.Decode Scenario.unknownModel.Body = _ by decide) (by decide) (by decide)]
  decide

/-- C2 at the request with the model `unknown`. -/
theorem unknown_model_rejected_witness :
    (Scenario.unknownModel.Method = str "POST" ∧
      (Scenario.env []).decode Scenario.unknownModel.Body =
        some ⟨[], 0, ⟨0⟩, false, str "unknown"⟩ ∧
      str "unknown" ∉ models.map Prod.fst) ∧
    (chatHandler (Scenario.env []) Scenario.unknownModel).status = 400 ∧
    (chatHandler (Scenario.env []) Scenario.unknownModel).stream = none :=
  ⟨⟨by decide, by decide, by decide⟩,
    (unknown_model_rejected (Scenario.env []) Scenario.unknownModel
      ⟨[], 0, ⟨0⟩, false, str "unknown"⟩ (by decide) (by decide) (Or.inr (by decide))).1,
    (unknown_model_rejected (Scenario.env []) Scenario.unknownModel
      ⟨[], 0, ⟨0⟩, false, str "unknown"⟩ (by decide) (by decide) (Or.inr (by decide))).2.1⟩

/-- The upstream request of `streamChatToHTTP`, when one is sent. -/
theorem streamChatToHTTP_posted (env : Env) (messages : List ChatMessage)
    (modelEndpoint : GoString) (maxTokens : Int) (modelType : GoString) (p : Post)
    (hp : (streamChatToHTTP env messages modelEndpoint maxTokens modelType).posted = some p) :
    env.marshal ⟨messages, 2000, Float64.lit_0_7, true, []⟩ = .ok p.body ∧
      p.url = modelEndpoint ∧ p.contentType = str "application/json" := by
  simp only [streamChatToHTTP, upstreamRequest] at hp
  split at hp
  · exact absurd hp (by simp)
  · rename_i jsonData hmarshal
    rw [hmarshal]
    split at hp
    · simp only [Option.some.injEq] at hp
      rw [← hp]
      exact ⟨rfl, rfl, rfl⟩
    · split at hp
      · simp only [Option.some.injEq] at hp
        rw [← hp]
        exact ⟨rfl, rfl, rfl⟩
      · simp only [Option.some.injEq] at hp
        rw [← hp]
        exact ⟨rfl, rfl, rfl⟩

/-- C8: the upstream request does not depend on `max_tokens` or `temperature` of the
inbound request. Two inbound requests with the same method, messages and model lead to
the same upstream POST (or to none); the whole outcome of `streamChatToHTTP` is the same
for any two values of its `maxTokens` argument; and the body of the POST is the encoding
of the request with the given messages, `max_tokens` 2000, `temperature` 0.7 (the
binary64 nearest to 0.7) and `stream` true. -/
theorem upstream_request_ignores_limits (env : Env) (r1 r2 : Request)
    (req1 req2 : StreamRequest) (hmethod : r1.Method = r2.Method)
    (h1 : env.decode r1.Body = some req1) (h2 : env.decode r2.Body = some req2)
    (hmessages : req1.Messages = req2.Messages) (hmodel : req1.Model = req2.Model) :
    ((chatHandler env r1).stream.bind fun c => c.outcome.posted) =
        ((chatHandler env r2).stream.bind fun c => c.outcome.posted) ∧
      (chatHandler env r1).body = (chatHandler env r2).body ∧
      (∀ (messages : List ChatMessage) (modelEndpoint : GoString) (m1 m2 : Int)
          (modelType : GoString),
        streamChatToHTTP env messages modelEndpoint m1 modelType =
          streamChatToHTTP env messages modelEndpoint m2 modelType) ∧
      (∀ (messages : List ChatMessage) (modelEndpoint : GoString) (maxTokens : Int)
          (modelType : GoString) (p : Post),
        (streamChatToHTTP env messages modelEndpoint maxTokens modelType).posted = some p →
          env.marshal ⟨messages, 2000, Float64.lit_0_7, true, []⟩ = .ok p.body) ∧
      strconv.ParseFloat (str "0.7") = some Float64.lit_0_7 := by
  have hre : chatHandler env r1 =
      { chatHandler env r2 with
        stream := (chatHandler env r2).stream.map fun c =>
          { c with maxTokens := req1.MaxTokens } } := by
    unfold chatHandler
    simp only [hmethod, h1, h2, hmessages, hmodel]
    split
    · rfl
    · split
      · rfl
      · split
        · rfl
        · split
          · rfl
          · rfl
  refine ⟨?_, ?_, fun _ _ _ _ _ => rfl, ?_, by decide⟩
  · rw [hre]
    cases (chatHandler env r2).stream <;> rfl
  · rw [hre]
  · intro messages modelEndpoint maxTokens modelType p hp
    exact (streamChatToHTTP_posted env messages modelEndpoint maxTokens modelType p hp).1

/-- C8 at two requests that differ in `max_tokens` and `temperature` only. -/
theorem upstream_request_ignores_limits_witness :
    (json.Decode Scenario.hi.Body =
        some ⟨[⟨str "user", str "hi"⟩], 0, ⟨0⟩, false, str "qwen3"⟩ ∧
      json.Decode Scenario.hiWithLimits.Body =
        some ⟨[⟨str "user", str "hi"⟩], 9000, ⟨0x3FF8000000000000⟩, false, str "qwen3"⟩) ∧
    ((chatHandler (Scenario.env []) Scenario.hi).stream.bind fun c => c.outcome.posted) =
      ((chatHandler (Scenario.env []) Scenario.hiWithLimits).stream.bind
        fun c => c.outcome.posted) :=
  ⟨⟨by decide, by decide⟩,
    (upstream_request_ignores_limits (Scenario.env []) Scenario.hi Scenario.hiWithLimits
      ⟨[⟨str "user", str "hi"⟩], 0, ⟨0⟩, false, str "qwen3"⟩
      ⟨[⟨str "user", str "hi"⟩], 9000, ⟨0x3FF8000000000000⟩, false, str "qwen3"⟩
      rfl (by decide) (by decide) rfl rfl).1⟩

/-! ## The registry -/

/-- C9: the routing table `models` and the listing table `modelInfo` have the same keys.
An identifier is a key of one exactly when it is a key of the other; a key is what
`chatHandler` finds in `models` and what `modelsHandler` lists; so every model for which
`chatHandler` calls `streamChatToHTTP` is listed, and every listed model has an endpoint. -/
theorem registry_tables_agree :
    (∀ id : GoString, id ∈ models.map Prod.fst ↔ id ∈ modelInfo.map Prod.fst) ∧
      (∀ id : GoString, (models.lookup id).isSome = true ↔ (modelInfo.lookup id).isSome = true) ∧
      (∀ r : Request, r.Method ≠ str "OPTIONS" → (modelsHandler r).2 = some modelInfo) ∧
      (∀ (env : Env) (r : Request) (call : StreamCall),
        (chatHandler env r).stream = some call → call.modelType ∈ modelInfo.map Prod.fst) ∧
      (∀ id ∈ modelInfo.map Prod.fst, ∃ modelEndpoint, models.lookup id = some modelEndpoint) := by
  have hkeys : models.map Prod.fst = modelInfo.map Prod.fst := by decide
  refine ⟨fun id => by rw [hkeys], ?_, ?_, ?_, ?_⟩
  · intro id
    rw [lookup_isSome_iff_key, lookup_isSome_iff_key, hkeys]
  · intro r hr
    simp [modelsHandler, hr]
  · intro env r call hcall
    obtain ⟨_, req, modelEndpoint, _, _, hlookup, hcall'⟩ := chatHandler_stream_inv env r call hcall
    rw [hcall', ← hkeys]
    exact (lookup_isSome_iff_key models req.Model).mp (by rw [hlookup]; rfl)
  · intro id hid
    rw [← hkeys] at hid
    exact Option.isSome_iff_exists.mp ((lookup_isSome_iff_key models id).mpr hid)

end Backend
